import Mathlib

/-!
# Verification of the ct-mapreduce storage layer

A shallow embedding, in Lean 4, of the storage/coordination substrate of the
`ct-mapreduce` repository (package `storage`, plus the Firestore-shaped
document backend), together with proofs about the embedded operations.

Modelling conventions:

* Go strings are modelled as byte lists (`GoStr := List Nat`, each entry a
  byte value `< 256`); Go's `strings.Compare` is byte-wise lexicographic
  comparison, which is `bytesLt` below.
* Go maps are modelled as association lists with `alookup`/`aset`.
* Machine integers (`int64`) are modelled as `Int`; byte values as `Nat`
  with explicit `% 256` / `% 2 ^ 32` where Go's fixed-width wrapping matters.
* Fallible Go operations (`(T, error)` returns) are modelled with `Option` /
  `Except`; the in-memory mock cache and the pure document-store model never
  fail, mirroring `MockRemoteCache` and the modelled subset of Firestore.
* `time.Time` is modelled by `GoTime` (Unix seconds plus nanoseconds).
-/

set_option autoImplicit false

namespace CtMapReduce

/-- Go strings, as lists of byte values.  All storage keys, document paths,
and encodings in the repository are byte strings. -/
abbrev GoStr := List Nat

/-- Embed a Lean string literal (ASCII) as a Go byte string. -/
def gostr (s : String) : GoStr := s.data.map Char.toNat

/-- Byte-wise lexicographic strict order on byte strings; this is the order
`strings.Compare(a, b) < 0` computes. -/
def bytesLt : GoStr → GoStr → Bool
  | [], [] => false
  | [], _ :: _ => true
  | _ :: _, [] => false
  | a :: as, b :: bs => if a < b then true else if b < a then false else bytesLt as bs

theorem bytesLt_irrefl (l : GoStr) : bytesLt l l = false := by
  induction l with
  | nil => rfl
  | cons a as ih => simp [bytesLt, ih]

theorem bytesLt_trans : ∀ {a b c : GoStr}, bytesLt a b = true →
    bytesLt b c = true → bytesLt a c = true
  | [], [], _, hab, _ => by simp [bytesLt] at hab
  | [], _ :: _, [], _, hbc => by simp [bytesLt] at hbc
  | [], _ :: _, _ :: _, _, _ => by simp [bytesLt]
  | _ :: _, [], _, hab, _ => by simp [bytesLt] at hab
  | _ :: _, _ :: _, [], _, hbc => by simp [bytesLt] at hbc
  | x :: xs, y :: ys, z :: zs, hab, hbc => by
    simp only [bytesLt] at hab hbc ⊢
    by_cases hxy : x < y
    · by_cases hyz : y < z
      · simp [Nat.lt_trans hxy hyz]
      · by_cases hzy : z < y
        · simp [hyz, hzy] at hbc
        · have hyz' : y = z := by omega
          subst hyz'
          simp [hxy]
    · by_cases hyx : y < x
      · simp [hxy, hyx] at hab
      · have hxy' : x = y := by omega
        subst hxy'
        simp only [Nat.lt_irrefl, if_false] at hab ⊢
        by_cases hyz : x < z
        · simp [hyz]
        · by_cases hzy : z < x
          · simp [hyz, hzy] at hbc
          · have hyz' : x = z := by omega
            subst hyz'
            simp only [Nat.lt_irrefl, if_false] at hbc ⊢
            exact bytesLt_trans hab hbc

theorem bytesLt_asymm {a b : GoStr} (h : bytesLt a b = true) :
    bytesLt b a = false := by
  by_contra hcon
  have h2 : bytesLt b a = true := by
    revert hcon
    cases bytesLt b a <;> simp
  have := bytesLt_trans h h2
  rw [bytesLt_irrefl] at this
  exact Bool.noConfusion this

theorem bytesLt_total : ∀ {a b : GoStr}, bytesLt a b = false → a ≠ b →
    bytesLt b a = true
  | [], [], _, hne => absurd rfl hne
  | [], _ :: _, hab, _ => by simp [bytesLt] at hab
  | _ :: _, [], _, _ => by simp [bytesLt]
  | x :: xs, y :: ys, hab, hne => by
    simp only [bytesLt] at hab ⊢
    by_cases hxy : x < y
    · simp [hxy] at hab
    · by_cases hyx : y < x
      · simp [hyx, Nat.lt_asymm hyx]
      · have hxy' : x = y := by omega
        subst hxy'
        simp only [Nat.lt_irrefl, if_false] at hab ⊢
        have hne' : xs ≠ ys := by
          intro h
          exact hne (by rw [h])
        exact bytesLt_total hab hne'

/-- The sortedness invariant `MockRemoteCache` maintains for every slice in
its `Data` map. -/
def CacheSorted (l : List GoStr) : Prop :=
  l.Pairwise (fun a b => bytesLt a b = true)

/-- `MockRemoteCache.SetInsert` (src/unnamed/part_006, lines 35–58): insert
`entry` into the sorted slice `Data[key]`, returning `true` iff the entry was
not already present.  The Go code locates the insertion point with
`sort.Search` (binary search for the least index `i` with `entry ≤ l[i]`);
on the sorted slices the cache maintains, the linear scan below finds the
same position, so the two are extensionally equal. -/
def setInsert : List GoStr → GoStr → Bool × List GoStr
  | [], e => (true, [e])
  | x :: xs, e =>
    if bytesLt e x then (true, e :: x :: xs)
    else if e = x then (false, x :: xs)
    else
      let r := setInsert xs e
      (r.1, x :: r.2)

theorem setInsert_mem (l : List GoStr) (e y : GoStr) :
    y ∈ (setInsert l e).2 ↔ y = e ∨ y ∈ l := by
  induction l with
  | nil => simp [setInsert]
  | cons x xs ih =>
    by_cases h1 : bytesLt e x = true
    · simp [setInsert, h1]
    · have h1' : bytesLt e x = false := by
        revert h1
        cases bytesLt e x <;> simp
      by_cases h2 : e = x
      · subst h2
        simp [setInsert, h1']
        try tauto
      · simp [setInsert, h1', h2, ih]
        try tauto

theorem setInsert_fresh (l : List GoStr) (e : GoStr) (hs : CacheSorted l) :
    (setInsert l e).1 = true ↔ e ∉ l := by
  induction l with
  | nil => simp [setInsert]
  | cons x xs ih =>
    rcases List.pairwise_cons.mp hs with ⟨hhead, htail⟩
    by_cases h1 : bytesLt e x = true
    · simp only [setInsert, h1, if_true]
      constructor
      · intro _ hmem
        rcases List.mem_cons.mp hmem with h | h
        · subst h
          rw [bytesLt_irrefl] at h1
          exact Bool.noConfusion h1
        · have := hhead e h
          rw [bytesLt_asymm this] at h1
          exact Bool.noConfusion h1
      · intro _
        trivial
    · have h1' : bytesLt e x = false := by
        revert h1
        cases bytesLt e x <;> simp
      by_cases h2 : e = x
      · subst h2
        simp [setInsert, h1']
      · simp only [setInsert, h1', Bool.false_eq_true, if_false, h2]
        rw [ih htail]
        simp [h2]

theorem setInsert_sorted (l : List GoStr) (e : GoStr) (hs : CacheSorted l) :
    CacheSorted (setInsert l e).2 := by
  induction l with
  | nil =>
    simp [setInsert, CacheSorted]
  | cons x xs ih =>
    rcases List.pairwise_cons.mp hs with ⟨hhead, htail⟩
    by_cases h1 : bytesLt e x = true
    · simp only [setInsert, h1, if_true]
      refine List.pairwise_cons.mpr ⟨?_, hs⟩
      intro y hy
      rcases List.mem_cons.mp hy with h | h
      · subst h
        exact h1
      · exact bytesLt_trans h1 (hhead y h)
    · have h1' : bytesLt e x = false := by
        revert h1
        cases bytesLt e x <;> simp
      by_cases h2 : e = x
      · subst h2
        simpa [setInsert, h1'] using hs
      · simp only [setInsert, h1', Bool.false_eq_true, if_false, h2]
        refine List.pairwise_cons.mpr ⟨?_, ih htail⟩
        intro y hy
        rcases (setInsert_mem xs e y).mp hy with h | h
        · subst h
          exact bytesLt_total h1' h2
        · exact hhead y h

theorem setInsert_length (l : List GoStr) (e : GoStr) :
    (setInsert l e).2.length = if (setInsert l e).1 then l.length + 1 else l.length := by
  induction l with
  | nil => simp [setInsert]
  | cons x xs ih =>
    by_cases h1 : bytesLt e x = true
    · simp [setInsert, h1]
    · have h1' : bytesLt e x = false := by
        revert h1
        cases bytesLt e x <;> simp
      by_cases h2 : e = x
      · subst h2
        simp [setInsert, h1']
      · simp only [setInsert, h1', Bool.false_eq_true, if_false, h2]
        cases h3 : (setInsert xs e).1 <;>
          simp [h3, List.length_cons] at ih ⊢ <;> omega

theorem setInsert_stable (l : List GoStr) (e : GoStr) (hs : CacheSorted l)
    (hmem : e ∈ l) : (setInsert l e).2 = l := by
  induction l with
  | nil => cases hmem
  | cons x xs ih =>
    rcases List.pairwise_cons.mp hs with ⟨hhead, htail⟩
    by_cases h1 : bytesLt e x = true
    · exfalso
      rcases List.mem_cons.mp hmem with h | h
      · subst h
        rw [bytesLt_irrefl] at h1
        exact Bool.noConfusion h1
      · have := hhead e h
        rw [bytesLt_asymm this] at h1
        exact Bool.noConfusion h1
    · have h1' : bytesLt e x = false := by
        revert h1
        cases bytesLt e x <;> simp
      by_cases h2 : e = x
      · subst h2
        simp [setInsert, h1']
      · have hmem' : e ∈ xs := by
          rcases List.mem_cons.mp hmem with h | h
          · exact absurd h h2
          · exact h
        simp [setInsert, h1', h2, ih htail hmem']


/-! ## Association lists: the model of Go maps -/

/-- Lookup in a Go map modelled as an association list. -/
def alookup {α : Type} : List (GoStr × α) → GoStr → Option α
  | [], _ => none
  | (k, v) :: rest, key => if key = k then some v else alookup rest key

/-- Map assignment `m[key] = v`: replace the binding if present, else append. -/
def aset {α : Type} : List (GoStr × α) → GoStr → α → List (GoStr × α)
  | [], key, v => [(key, v)]
  | (k, w) :: rest, key, v =>
    if key = k then (k, v) :: rest else (k, w) :: aset rest key v

theorem alookup_aset {α : Type} (m : List (GoStr × α)) (k k' : GoStr) (v : α) :
    alookup (aset m k v) k' = if k' = k then some v else alookup m k' := by
  induction m with
  | nil =>
    by_cases h : k' = k <;> simp [aset, alookup, h]
  | cons kv rest ih =>
    obtain ⟨k0, w⟩ := kv
    by_cases h0 : k = k0
    · subst h0
      by_cases h1 : k' = k <;> simp [aset, alookup, h1]
    · by_cases h1 : k' = k0
      · subst h1
        have h0' : ¬k' = k := fun h => h0 h.symm
        simp [aset, alookup, h0, h0']
      · simp [aset, alookup, h0, h1, ih]

/-! ## URL-safe base64 (`encoding/base64`, `base64.URLEncoding` and
`base64.RawURLEncoding`)

`Serial.ID`, `SPKI.ID`, `Issuer.ID` and `CertificateLogIDFromShortURL` all use
`base64.URLEncoding.EncodeToString` (alphabet `A–Za–z0–9-_`, `=` padding);
`logNameToId` uses `base64.RawURLEncoding` (same alphabet, no padding). -/

/-- Byte value of the `i`-th character of the URL-safe base64 alphabet. -/
def b64Char (i : Nat) : Nat :=
  if i < 26 then 65 + i
  else if i < 52 then 97 + (i - 26)
  else if i < 62 then 48 + (i - 52)
  else if i = 62 then 45
  else if i = 63 then 95
  else 0

/-- Inverse alphabet lookup used by `base64.URLEncoding.DecodeString`. -/
def b64Index (c : Nat) : Option Nat :=
  if 65 ≤ c ∧ c ≤ 90 then some (c - 65)
  else if 97 ≤ c ∧ c ≤ 122 then some (c - 71)
  else if 48 ≤ c ∧ c ≤ 57 then some (c + 4)
  else if c = 45 then some 62
  else if c = 95 then some 63
  else none

theorem b64Index_b64Char : ∀ i, i < 64 → b64Index (b64Char i) = some i := by
  decide

theorem b64Char_ne_pad : ∀ i, i < 64 → b64Char i ≠ 61 := by
  decide

/-- `base64.URLEncoding.EncodeToString`: 3 input bytes become 4 alphabet
bytes; a 2-byte tail becomes 3 alphabet bytes and `=`; a 1-byte tail becomes
2 alphabet bytes and `==`. -/
def b64Encode : List Nat → GoStr
  | b1 :: b2 :: b3 :: rest =>
    b64Char (b1 / 4) :: b64Char (b1 % 4 * 16 + b2 / 16) ::
      b64Char (b2 % 16 * 4 + b3 / 64) :: b64Char (b3 % 64) :: b64Encode rest
  | [b1, b2] => [b64Char (b1 / 4), b64Char (b1 % 4 * 16 + b2 / 16),
      b64Char (b2 % 16 * 4), 61]
  | [b1] => [b64Char (b1 / 4), b64Char (b1 % 4 * 16), 61, 61]
  | [] => []

/-- `base64.RawURLEncoding.EncodeToString`: as `b64Encode` but unpadded. -/
def b64EncodeNoPad : List Nat → GoStr
  | b1 :: b2 :: b3 :: rest =>
    b64Char (b1 / 4) :: b64Char (b1 % 4 * 16 + b2 / 16) ::
      b64Char (b2 % 16 * 4 + b3 / 64) :: b64Char (b3 % 64) :: b64EncodeNoPad rest
  | [b1, b2] => [b64Char (b1 / 4), b64Char (b1 % 4 * 16 + b2 / 16),
      b64Char (b2 % 16 * 4)]
  | [b1] => [b64Char (b1 / 4), b64Char (b1 % 4 * 16)]
  | [] => []

/-- `base64.URLEncoding.DecodeString`: strict 4-byte blocks, `=` padding
allowed only at the end.  (Like Go's default decoder, trailing bits in the
final partial group are not checked.) -/
def b64Decode : GoStr → Option (List Nat)
  | [] => some []
  | c1 :: c2 :: c3 :: c4 :: rest =>
    match b64Index c1, b64Index c2 with
    | some s1, some s2 =>
      if c3 = 61 then
        if c4 = 61 ∧ rest = [] then some [s1 * 4 + s2 / 16] else none
      else
        match b64Index c3 with
        | some s3 =>
          if c4 = 61 then
            if rest = [] then some [s1 * 4 + s2 / 16, s2 % 16 * 16 + s3 / 4]
            else none
          else
            match b64Index c4 with
            | some s4 =>
              match b64Decode rest with
              | some bs => some ((s1 * 4 + s2 / 16) :: (s2 % 16 * 16 + s3 / 4) ::
                  (s3 % 4 * 64 + s4) :: bs)
              | none => none
            | none => none
        | none => none
    | _, _ => none
  | _ => none

theorem b64Decode_b64Encode : ∀ l : List Nat, (∀ b ∈ l, b < 256) →
    b64Decode (b64Encode l) = some l
  | [], _ => rfl
  | [b1], h => by
    have hb1 : b1 < 256 := h b1 (by simp)
    have h1 : b1 / 4 < 64 := by omega
    have h2 : b1 % 4 * 16 < 64 := by omega
    simp only [b64Encode, b64Decode, b64Index_b64Char _ h1, b64Index_b64Char _ h2]
    simp
    omega
  | [b1, b2], h => by
    have hb1 : b1 < 256 := h b1 (by simp)
    have hb2 : b2 < 256 := h b2 (by simp)
    have h1 : b1 / 4 < 64 := by omega
    have h2 : b1 % 4 * 16 + b2 / 16 < 64 := by omega
    have h3 : b2 % 16 * 4 < 64 := by omega
    simp only [b64Encode, b64Decode, b64Index_b64Char _ h1, b64Index_b64Char _ h2,
      b64Index_b64Char _ h3]
    rw [if_neg (b64Char_ne_pad _ h3)]
    simp
    omega
  | b1 :: b2 :: b3 :: rest, h => by
    have hb1 : b1 < 256 := h b1 (by simp)
    have hb2 : b2 < 256 := h b2 (by simp)
    have hb3 : b3 < 256 := h b3 (by simp)
    have h1 : b1 / 4 < 64 := by omega
    have h2 : b1 % 4 * 16 + b2 / 16 < 64 := by omega
    have h3 : b2 % 16 * 4 + b3 / 64 < 64 := by omega
    have h4 : b3 % 64 < 64 := by omega
    have hrest : b64Decode (b64Encode rest) = some rest :=
      b64Decode_b64Encode rest (fun b hb => h b (by simp [hb]))
    have hne3 : b64Char (b2 % 16 * 4 + b3 / 64) ≠ 61 := b64Char_ne_pad _ h3
    have hne4 : b64Char (b3 % 64) ≠ 61 := b64Char_ne_pad _ h4
    show b64Decode (b64Char (b1 / 4) :: b64Char (b1 % 4 * 16 + b2 / 16) ::
      b64Char (b2 % 16 * 4 + b3 / 64) :: b64Char (b3 % 64) :: b64Encode rest) = _
    rw [b64Decode]
    simp only [b64Index_b64Char _ h1, b64Index_b64Char _ h2, b64Index_b64Char _ h3,
      b64Index_b64Char _ h4, hne3, hne4, if_false, hrest, Option.some.injEq,
      List.cons.injEq]
    refine ⟨by omega, by omega, by omega, trivial⟩

/-! ## Hex (`encoding/hex`)

`Serial.HexString` uses `hex.EncodeToString` (lowercase digits);
`NewSerialFromHex` uses `hex.DecodeString`, which accepts both cases. -/

/-- Lowercase hex digit byte for a nibble. -/
def hexDigit (n : Nat) : Nat := if n < 10 then 48 + n else 87 + n

/-- `hex.EncodeToString` over bytes. -/
def hexEncode : List Nat → GoStr
  | [] => []
  | b :: bs => hexDigit (b / 16) :: hexDigit (b % 16) :: hexEncode bs

/-- Value of one hex digit byte (`0-9`, `a-f`, `A-F`). -/
def hexDigitVal (c : Nat) : Option Nat :=
  if 48 ≤ c ∧ c ≤ 57 then some (c - 48)
  else if 97 ≤ c ∧ c ≤ 102 then some (c - 87)
  else if 65 ≤ c ∧ c ≤ 70 then some (c - 55)
  else none

/-- `hex.DecodeString`: fails on odd length or a non-hex byte. -/
def hexDecode : GoStr → Option (List Nat)
  | [] => some []
  | [_] => none
  | c1 :: c2 :: rest =>
    match hexDigitVal c1, hexDigitVal c2, hexDecode rest with
    | some hi, some lo, some bs => some ((hi * 16 + lo) :: bs)
    | _, _, _ => none

theorem hexDigitVal_hexDigit : ∀ n, n < 16 → hexDigitVal (hexDigit n) = some n := by
  decide

theorem hexDecode_hexEncode : ∀ l : List Nat, (∀ b ∈ l, b < 256) →
    hexDecode (hexEncode l) = some l
  | [], _ => rfl
  | b :: bs, h => by
    have hb : b < 256 := h b (by simp)
    have h1 : b / 16 < 16 := by omega
    have h2 : b % 16 < 16 := by omega
    have hrest : hexDecode (hexEncode bs) = some bs :=
      hexDecode_hexEncode bs (fun x hx => h x (by simp [hx]))
    show hexDecode (hexDigit (b / 16) :: hexDigit (b % 16) :: hexEncode bs) = _
    rw [hexDecode]
    simp only [hexDigitVal_hexDigit _ h1, hexDigitVal_hexDigit _ h2, hrest,
      Option.some.injEq, List.cons.injEq]
    refine ⟨by omega, trivial⟩

/-! ## Ascii85 (`encoding/ascii85`)

`Serial.Ascii85` uses `ascii85.Encode`; `NewSerialFromAscii85` uses
`ascii85.Decode(dst, src, true)` and additionally requires that the whole
input was consumed (which, absent an error, the flushing decoder guarantees;
the `len(dst)-ndst < 4` early exit in the Go loop is unreachable because the
caller allocates `4*len(src)` output bytes). -/

/-- The five base-85 digit bytes of a 32-bit group, most significant first
(`'!' + v / 85^k % 85`). -/
def a85Digits (v : Nat) : List Nat :=
  [33 + v / 52200625 % 85, 33 + v / 614125 % 85, 33 + v / 7225 % 85,
    33 + v / 85 % 85, 33 + v % 85]

/-- `ascii85.Encode`: 4-byte groups become 5 digits, an all-zero full group
becomes `z` (byte 122), and a trailing group of `k < 4` bytes is zero-padded
and truncated to its first `k+1` digits. -/
def ascii85Encode : List Nat → GoStr
  | b1 :: b2 :: b3 :: b4 :: rest =>
    let v := b1 * 16777216 + b2 * 65536 + b3 * 256 + b4
    if v = 0 then 122 :: ascii85Encode rest
    else a85Digits v ++ ascii85Encode rest
  | [] => []
  | [b1] => (a85Digits (b1 * 16777216)).take 2
  | [b1, b2] => (a85Digits (b1 * 16777216 + b2 * 65536)).take 3
  | [b1, b2, b3] => (a85Digits (b1 * 16777216 + b2 * 65536 + b3 * 256)).take 4

/-- The main loop of `ascii85.Decode`: state is the 32-bit accumulator `v`
(wrapping, hence the `% 2^32`), the digit count `nb` of the current group,
and the bytes produced so far.  Bytes `≤ ' '` are skipped; `z` is a whole
zero group (only legal between groups); digits must lie in `'!'..'u'`. -/
def a85DecodeLoop : GoStr → Nat → Nat → List Nat → Option (Nat × Nat × List Nat)
  | [], v, nb, acc => some (v, nb, acc)
  | c :: cs, v, nb, acc =>
    if c ≤ 32 then a85DecodeLoop cs v nb acc
    else if c = 122 ∧ nb = 0 then
      a85DecodeLoop cs 0 0 (acc ++ [0, 0, 0, 0])
    else if 33 ≤ c ∧ c ≤ 117 then
      if nb + 1 = 5 then
        a85DecodeLoop cs 0 0 (acc ++
          [(v * 85 + (c - 33)) % 4294967296 / 16777216 % 256,
           (v * 85 + (c - 33)) % 4294967296 / 65536 % 256,
           (v * 85 + (c - 33)) % 4294967296 / 256 % 256,
           (v * 85 + (c - 33)) % 4294967296 % 256])
      else a85DecodeLoop cs ((v * 85 + (c - 33)) % 4294967296) (nb + 1) acc
    else none

/-- The flush step of `ascii85.Decode`: pad the partial group with worst-case
digits (84) until five digits are accumulated (wrapping 32-bit arithmetic). -/
def a85Flush (v : Nat) : Nat → Nat
  | 0 => v
  | n + 1 => a85Flush ((v * 85 + 84) % 4294967296) n

/-- `ascii85.Decode(dst, src, flush=true)`: run the loop, then flush a
partial trailing group of `nb` digits into `nb - 1` bytes (a single trailing
digit is corrupt input). -/
def ascii85Decode (s : GoStr) : Option (List Nat) :=
  match a85DecodeLoop s 0 0 [] with
  | none => none
  | some (v, nb, acc) =>
    if nb = 0 then some acc
    else if nb = 1 then none
    else
      some (acc ++ (List.range (nb - 1)).map
        (fun i => a85Flush v (5 - nb) / 2 ^ (24 - 8 * i) % 256))

theorem a85_step (c : Nat) (cs : GoStr) (v nb : Nat) (acc : List Nat)
    (h3 : 33 ≤ c ∧ c ≤ 117) (h4 : nb + 1 ≠ 5) :
    a85DecodeLoop (c :: cs) v nb acc =
      a85DecodeLoop cs ((v * 85 + (c - 33)) % 4294967296) (nb + 1) acc := by
  rw [a85DecodeLoop, if_neg (by omega), if_neg (by omega), if_pos h3, if_neg h4]

theorem a85_step5 (c : Nat) (cs : GoStr) (v : Nat) (acc : List Nat)
    (h3 : 33 ≤ c ∧ c ≤ 117) :
    a85DecodeLoop (c :: cs) v 4 acc =
      a85DecodeLoop cs 0 0 (acc ++
        [(v * 85 + (c - 33)) % 4294967296 / 16777216 % 256,
         (v * 85 + (c - 33)) % 4294967296 / 65536 % 256,
         (v * 85 + (c - 33)) % 4294967296 / 256 % 256,
         (v * 85 + (c - 33)) % 4294967296 % 256]) := by
  rw [a85DecodeLoop, if_neg (by omega), if_neg (by omega), if_pos h3, if_pos rfl]

theorem div_52200625 (v : Nat) : v / 52200625 = v / 614125 / 85 := by
  rw [Nat.div_div_eq_div_mul]

theorem div_614125 (v : Nat) : v / 614125 = v / 7225 / 85 := by
  rw [Nat.div_div_eq_div_mul]

theorem div_7225 (v : Nat) : v / 7225 = v / 85 / 85 := by
  rw [Nat.div_div_eq_div_mul]

/-- Absorbing the leading base-85 digit into a fresh accumulator. -/
theorem a85_digit_first (v : Nat) (hv : v < 4437053125) :
    (0 * 85 + (33 + v / 52200625 % 85 - 33)) % 4294967296 = v / 52200625 := by
  have h1 : v / 52200625 < 85 := by omega
  have h2 : v / 52200625 % 85 = v / 52200625 := Nat.mod_eq_of_lt h1
  rw [h2]
  omega

/-- Absorbing a subsequent base-85 digit: the accumulator `Y / 85` together
with the digit `Y % 85` reconstruct `Y`. -/
theorem a85_digit_chain (Y : Nat) (hY : Y < 4294967296) :
    (Y / 85 * 85 + (33 + Y % 85 - 33)) % 4294967296 = Y := by
  omega

/-- Consuming the five digits of a full nonzero group restores the group
value and emits its four bytes. -/
theorem a85DecodeLoop_digits (v : Nat) (hv : v < 4294967296) (cs : GoStr)
    (acc : List Nat) :
    a85DecodeLoop (a85Digits v ++ cs) 0 0 acc =
      a85DecodeLoop cs 0 0
        (acc ++ [v / 16777216 % 256, v / 65536 % 256, v / 256 % 256, v % 256]) := by
  rw [a85Digits]
  simp only [List.cons_append, List.nil_append]
  rw [a85_step _ _ _ _ _ (by omega) (by omega), a85_digit_first v (by omega)]
  rw [a85_step _ _ _ _ _ (by omega) (by omega), div_52200625 v,
    a85_digit_chain (v / 614125) (by omega)]
  rw [a85_step _ _ _ _ _ (by omega) (by omega), div_614125 v,
    a85_digit_chain (v / 7225) (by omega)]
  rw [a85_step _ _ _ _ _ (by omega) (by omega), div_7225 v,
    a85_digit_chain (v / 85) (by omega)]
  rw [a85_step5 _ _ _ _ (by omega)]
  have e5 : (v / 85 * 85 + (33 + v % 85 - 33)) % 4294967296 = v := by omega
  rw [e5]

/-- Round trip for `encoding/ascii85` on byte inputs, stated with an
arbitrary accumulator so that the induction goes through group by group. -/
theorem a85_roundtrip_aux : ∀ l : List Nat, (∀ b ∈ l, b < 256) →
    ∀ acc : List Nat,
    (match a85DecodeLoop (ascii85Encode l) 0 0 acc with
     | none => none
     | some (v, nb, accf) =>
       if nb = 0 then some accf
       else if nb = 1 then none
       else some (accf ++ (List.range (nb - 1)).map
         (fun i => a85Flush v (5 - nb) / 2 ^ (24 - 8 * i) % 256)))
    = some (acc ++ l)
  | [], _, acc => by
    simp [ascii85Encode, a85DecodeLoop]
  | [b1], h, acc => by
    have hb1 : b1 < 256 := h b1 (by simp)
    show (match a85DecodeLoop ((a85Digits (b1 * 16777216)).take 2) 0 0 acc with
      | none => none
      | some (v, nb, accf) =>
        if nb = 0 then some accf
        else if nb = 1 then none
        else some (accf ++ (List.range (nb - 1)).map
          (fun i => a85Flush v (5 - nb) / 2 ^ (24 - 8 * i) % 256))) = _
    rw [a85Digits]
    simp only [List.take_succ_cons, List.take_zero]
    rw [a85_step _ _ _ _ _ (by omega) (by omega),
      a85_digit_first (b1 * 16777216) (by omega)]
    rw [a85_step _ _ _ _ _ (by omega) (by omega), div_52200625 (b1 * 16777216),
      a85_digit_chain (b1 * 16777216 / 614125) (by omega)]
    rw [a85DecodeLoop]
    simp only [if_neg (by omega : ¬(2 : Nat) = 0), if_neg (by omega : ¬(2 : Nat) = 1)]
    have hflush : a85Flush (b1 * 16777216 / 614125) (5 - 2)
        = b1 * 16777216 / 614125 * 614125 + 614124 := by
      show a85Flush (b1 * 16777216 / 614125) 3 = _
      rw [a85Flush, a85Flush, a85Flush, a85Flush]
      have hq : b1 * 16777216 / 614125 < 6967 := by omega
      omega
    rw [hflush]
    have hrange : List.range (2 - 1) = [0] := by decide
    rw [hrange]
    simp only [List.map_cons, List.map_nil, Option.some.injEq]
    have hbyte : (b1 * 16777216 / 614125 * 614125 + 614124) / 2 ^ (24 - 8 * 0) % 256
        = b1 := by
      simp only [Nat.mul_zero, Nat.sub_zero]
      have hp : (2 : Nat) ^ 24 = 16777216 := by norm_num
      rw [hp]
      have hc : (b1 * 16777216 / 614125 * 614125 + 614124) / 16777216 = b1 := by
        omega
      rw [hc]
      omega
    rw [hbyte]
  | [b1, b2], h, acc => by
    have hb1 : b1 < 256 := h b1 (by simp)
    have hb2 : b2 < 256 := h b2 (by simp)
    show (match a85DecodeLoop
        ((a85Digits (b1 * 16777216 + b2 * 65536)).take 3) 0 0 acc with
      | none => none
      | some (v, nb, accf) =>
        if nb = 0 then some accf
        else if nb = 1 then none
        else some (accf ++ (List.range (nb - 1)).map
          (fun i => a85Flush v (5 - nb) / 2 ^ (24 - 8 * i) % 256))) = _
    rw [a85Digits]
    simp only [List.take_succ_cons, List.take_zero]
    rw [a85_step _ _ _ _ _ (by omega) (by omega),
      a85_digit_first (b1 * 16777216 + b2 * 65536) (by omega)]
    rw [a85_step _ _ _ _ _ (by omega) (by omega),
      div_52200625 (b1 * 16777216 + b2 * 65536),
      a85_digit_chain ((b1 * 16777216 + b2 * 65536) / 614125) (by omega)]
    rw [a85_step _ _ _ _ _ (by omega) (by omega),
      div_614125 (b1 * 16777216 + b2 * 65536),
      a85_digit_chain ((b1 * 16777216 + b2 * 65536) / 7225) (by omega)]
    rw [a85DecodeLoop]
    simp only [if_neg (by omega : ¬(3 : Nat) = 0), if_neg (by omega : ¬(3 : Nat) = 1)]
    have hflush : a85Flush ((b1 * 16777216 + b2 * 65536) / 7225) (5 - 3)
        = (b1 * 16777216 + b2 * 65536) / 7225 * 7225 + 7224 := by
      show a85Flush ((b1 * 16777216 + b2 * 65536) / 7225) 2 = _
      rw [a85Flush, a85Flush, a85Flush]
      have hq : (b1 * 16777216 + b2 * 65536) / 7225 < 594451 := by omega
      omega
    rw [hflush]
    have hrange : List.range (3 - 1) = [0, 1] := by decide
    rw [hrange]
    simp only [List.map_cons, List.map_nil, Option.some.injEq]
    have hbyte1 : ((b1 * 16777216 + b2 * 65536) / 7225 * 7225 + 7224) /
        2 ^ (24 - 8 * 0) % 256 = b1 := by
      simp only [Nat.mul_zero, Nat.sub_zero]
      have hp : (2 : Nat) ^ 24 = 16777216 := by norm_num
      rw [hp]
      have hc : ((b1 * 16777216 + b2 * 65536) / 7225 * 7225 + 7224) / 16777216
          = b1 := by omega
      rw [hc]
      omega
    have hbyte2 : ((b1 * 16777216 + b2 * 65536) / 7225 * 7225 + 7224) /
        2 ^ (24 - 8 * 1) % 256 = b2 := by
      simp only [Nat.mul_one]
      have hp : (2 : Nat) ^ (24 - 8) = 65536 := by norm_num
      rw [hp]
      have hc : ((b1 * 16777216 + b2 * 65536) / 7225 * 7225 + 7224) / 65536
          = b1 * 256 + b2 := by omega
      rw [hc]
      omega
    rw [hbyte1, hbyte2]
  | [b1, b2, b3], h, acc => by
    have hb1 : b1 < 256 := h b1 (by simp)
    have hb2 : b2 < 256 := h b2 (by simp)
    have hb3 : b3 < 256 := h b3 (by simp)
    show (match a85DecodeLoop
        ((a85Digits (b1 * 16777216 + b2 * 65536 + b3 * 256)).take 4) 0 0 acc with
      | none => none
      | some (v, nb, accf) =>
        if nb = 0 then some accf
        else if nb = 1 then none
        else some (accf ++ (List.range (nb - 1)).map
          (fun i => a85Flush v (5 - nb) / 2 ^ (24 - 8 * i) % 256))) = _
    rw [a85Digits]
    simp only [List.take_succ_cons, List.take_zero]
    rw [a85_step _ _ _ _ _ (by omega) (by omega),
      a85_digit_first (b1 * 16777216 + b2 * 65536 + b3 * 256) (by omega)]
    rw [a85_step _ _ _ _ _ (by omega) (by omega),
      div_52200625 (b1 * 16777216 + b2 * 65536 + b3 * 256),
      a85_digit_chain ((b1 * 16777216 + b2 * 65536 + b3 * 256) / 614125) (by omega)]
    rw [a85_step _ _ _ _ _ (by omega) (by omega),
      div_614125 (b1 * 16777216 + b2 * 65536 + b3 * 256),
      a85_digit_chain ((b1 * 16777216 + b2 * 65536 + b3 * 256) / 7225) (by omega)]
    rw [a85_step _ _ _ _ _ (by omega) (by omega),
      div_7225 (b1 * 16777216 + b2 * 65536 + b3 * 256),
      a85_digit_chain ((b1 * 16777216 + b2 * 65536 + b3 * 256) / 85) (by omega)]
    rw [a85DecodeLoop]
    simp only [if_neg (by omega : ¬(4 : Nat) = 0), if_neg (by omega : ¬(4 : Nat) = 1)]
    have hflush : a85Flush ((b1 * 16777216 + b2 * 65536 + b3 * 256) / 85) (5 - 4)
        = (b1 * 16777216 + b2 * 65536 + b3 * 256) / 85 * 85 + 84 := by
      show a85Flush ((b1 * 16777216 + b2 * 65536 + b3 * 256) / 85) 1 = _
      rw [a85Flush, a85Flush]
      have hq : (b1 * 16777216 + b2 * 65536 + b3 * 256) / 85 < 50529025 := by omega
      omega
    rw [hflush]
    have hrange : List.range (4 - 1) = [0, 1, 2] := by decide
    rw [hrange]
    simp only [List.map_cons, List.map_nil, Option.some.injEq]
    have hbyte1 : ((b1 * 16777216 + b2 * 65536 + b3 * 256) / 85 * 85 + 84) /
        2 ^ (24 - 8 * 0) % 256 = b1 := by
      simp only [Nat.mul_zero, Nat.sub_zero]
      have hp : (2 : Nat) ^ 24 = 16777216 := by norm_num
      rw [hp]
      have hc : ((b1 * 16777216 + b2 * 65536 + b3 * 256) / 85 * 85 + 84) /
          16777216 = b1 := by omega
      rw [hc]
      omega
    have hbyte2 : ((b1 * 16777216 + b2 * 65536 + b3 * 256) / 85 * 85 + 84) /
        2 ^ (24 - 8 * 1) % 256 = b2 := by
      simp only [Nat.mul_one]
      have hp : (2 : Nat) ^ (24 - 8) = 65536 := by norm_num
      rw [hp]
      have hc : ((b1 * 16777216 + b2 * 65536 + b3 * 256) / 85 * 85 + 84) /
          65536 = b1 * 256 + b2 := by omega
      rw [hc]
      omega
    have hbyte3 : ((b1 * 16777216 + b2 * 65536 + b3 * 256) / 85 * 85 + 84) /
        2 ^ (24 - 8 * 2) % 256 = b3 := by
      have hp : (2 : Nat) ^ (24 - 8 * 2) = 256 := by norm_num
      rw [hp]
      have hc : ((b1 * 16777216 + b2 * 65536 + b3 * 256) / 85 * 85 + 84) /
          256 = b1 * 65536 + b2 * 256 + b3 := by omega
      rw [hc]
      omega
    rw [hbyte1, hbyte2, hbyte3]
  | b1 :: b2 :: b3 :: b4 :: rest, h, acc => by
    have hb1 : b1 < 256 := h b1 (by simp)
    have hb2 : b2 < 256 := h b2 (by simp)
    have hb3 : b3 < 256 := h b3 (by simp)
    have hb4 : b4 < 256 := h b4 (by simp)
    have hrest : ∀ b ∈ rest, b < 256 := fun b hb => h b (by simp [hb])
    have ih := a85_roundtrip_aux rest hrest
    show (match a85DecodeLoop (ascii85Encode (b1 :: b2 :: b3 :: b4 :: rest))
        0 0 acc with
      | none => none
      | some (v, nb, accf) =>
        if nb = 0 then some accf
        else if nb = 1 then none
        else some (accf ++ (List.range (nb - 1)).map
          (fun i => a85Flush v (5 - nb) / 2 ^ (24 - 8 * i) % 256))) = _
    rw [ascii85Encode]
    by_cases hz : b1 * 16777216 + b2 * 65536 + b3 * 256 + b4 = 0
    · rw [if_pos hz]
      have hb1z : b1 = 0 := by omega
      have hb2z : b2 = 0 := by omega
      have hb3z : b3 = 0 := by omega
      have hb4z : b4 = 0 := by omega
      subst hb1z hb2z hb3z hb4z
      rw [a85DecodeLoop, if_neg (by omega), if_pos (by simp)]
      rw [ih (acc ++ [0, 0, 0, 0])]
      simp
    · rw [if_neg hz]
      rw [a85DecodeLoop_digits _ (by omega) _ _]
      have k1 : (b1 * 16777216 + b2 * 65536 + b3 * 256 + b4) / 16777216 % 256
          = b1 := by omega
      have k2 : (b1 * 16777216 + b2 * 65536 + b3 * 256 + b4) / 65536 % 256
          = b2 := by omega
      have k3 : (b1 * 16777216 + b2 * 65536 + b3 * 256 + b4) / 256 % 256
          = b3 := by omega
      have k4 : (b1 * 16777216 + b2 * 65536 + b3 * 256 + b4) % 256 = b4 := by
        omega
      rw [k1, k2, k3, k4]
      rw [ih (acc ++ [b1, b2, b3, b4])]
      simp

/-- Round trip for `encoding/ascii85` over arbitrary byte inputs. -/
theorem ascii85Decode_ascii85Encode (l : List Nat) (h : ∀ b ∈ l, b < 256) :
    ascii85Decode (ascii85Encode l) = some l := by
  have := a85_roundtrip_aux l h []
  simpa [ascii85Decode] using this

/-! ## SHA-256 (`crypto/sha256`)

`Issuer.ID` is the URL-safe base64 of SHA-256(SPKI), and the Firestore
backend's `logNameToId` is the raw URL-safe base64 of SHA-256(short URL), so
the hash itself is part of the embedded behaviour.  All words are `Nat`
reduced `% 2^32`. -/

/-- 32-bit rotate right (for `x < 2^32`). -/
def rotr32 (n x : Nat) : Nat := (x / 2 ^ n + x % 2 ^ n * 2 ^ (32 - n)) % 4294967296

/-- Bitwise complement within 32 bits (for `x < 2^32`). -/
def bnot32 (x : Nat) : Nat := 4294967295 - x

def sha256BigSigma0 (x : Nat) : Nat :=
  Nat.xor (Nat.xor (rotr32 2 x) (rotr32 13 x)) (rotr32 22 x)

def sha256BigSigma1 (x : Nat) : Nat :=
  Nat.xor (Nat.xor (rotr32 6 x) (rotr32 11 x)) (rotr32 25 x)

def sha256SmallSigma0 (x : Nat) : Nat :=
  Nat.xor (Nat.xor (rotr32 7 x) (rotr32 18 x)) (x / 2 ^ 3)

def sha256SmallSigma1 (x : Nat) : Nat :=
  Nat.xor (Nat.xor (rotr32 17 x) (rotr32 19 x)) (x / 2 ^ 10)

def sha256Ch (x y z : Nat) : Nat := Nat.xor (Nat.land x y) (Nat.land (bnot32 x) z)

def sha256Maj (x y z : Nat) : Nat :=
  Nat.xor (Nat.xor (Nat.land x y) (Nat.land x z)) (Nat.land y z)

/-- The 64 SHA-256 round constants (the cube-root fractions, written in
decimal). -/
def sha256K : List Nat :=
  [1116352408, 1899447441, 3049323471, 3921009573, 961987163,
   1508970993, 2453635748, 2870763221, 3624381080, 310598401,
   607225278, 1426881987, 1925078388, 2162078206, 2614888103,
   3248222580, 3835390401, 4022224774, 264347078, 604807628,
   770255983, 1249150122, 1555081692, 1996064986, 2554220882,
   2821834349, 2952996808, 3210313671, 3336571891, 3584528711,
   113926993, 338241895, 666307205, 773529912, 1294757372,
   1396182291, 1695183700, 1986661051, 2177026350, 2456956037,
   2730485921, 2820302411, 3259730800, 3345764771, 3516065817,
   3600352804, 4094571909, 275423344, 430227734, 506948616,
   659060556, 883997877, 958139571, 1322822218, 1537002063,
   1747873779, 1955562222, 2024104815, 2227730452, 2361852424,
   2428436474, 2756734187, 3204031479, 3329325298]

/-- The SHA-256 initial hash state (the square-root fractions, in
decimal). -/
def sha256H0 : List Nat :=
  [1779033703, 3144134277, 1013904242, 2773480762, 1359893119,
   2600822924, 528734635, 1541459225]

/-- Big-endian 32-bit word from four bytes, repeated over the list. -/
def bytesToWords : List Nat → List Nat
  | b1 :: b2 :: b3 :: b4 :: rest =>
    (b1 * 16777216 + b2 * 65536 + b3 * 256 + b4) :: bytesToWords rest
  | _ => []

/-- Big-endian bytes of a 32-bit word. -/
def be32 (n : Nat) : List Nat :=
  [n / 16777216 % 256, n / 65536 % 256, n / 256 % 256, n % 256]

/-- Big-endian bytes of a 64-bit length field. -/
def be64 (n : Nat) : List Nat :=
  [n / 2 ^ 56 % 256, n / 2 ^ 48 % 256, n / 2 ^ 40 % 256, n / 2 ^ 32 % 256,
   n / 2 ^ 24 % 256, n / 2 ^ 16 % 256, n / 2 ^ 8 % 256, n % 256]

/-- Extend the 16-word schedule to 64 words (`fuel = 48`). -/
def sha256Schedule (w : List Nat) : Nat → List Nat
  | 0 => w
  | n + 1 =>
    sha256Schedule (w ++ [(sha256SmallSigma1 (w.getD (w.length - 2) 0) +
      w.getD (w.length - 7) 0 + sha256SmallSigma0 (w.getD (w.length - 15) 0) +
      w.getD (w.length - 16) 0) % 4294967296]) n

/-- One SHA-256 compression round on the state `[a,b,c,d,e,f,g,h]`. -/
def sha256Round (st : List Nat) (k w : Nat) : List Nat :=
  let a := st.getD 0 0
  let b := st.getD 1 0
  let c := st.getD 2 0
  let d := st.getD 3 0
  let e := st.getD 4 0
  let f := st.getD 5 0
  let g := st.getD 6 0
  let h := st.getD 7 0
  let t1 := (h + sha256BigSigma1 e + sha256Ch e f g + k + w) % 4294967296
  let t2 := (sha256BigSigma0 a + sha256Maj a b c) % 4294967296
  [(t1 + t2) % 4294967296, a, b, c, (d + t1) % 4294967296, e, f, g]

/-- Compress one 64-byte chunk into the running hash state. -/
def sha256Compress (h : List Nat) (chunk : List Nat) : List Nat :=
  let w := sha256Schedule (bytesToWords chunk) 48
  let st := (sha256K.zip w).foldl (fun s kw => sha256Round s kw.1 kw.2) h
  (h.zip st).map (fun p => (p.1 + p.2) % 4294967296)

/-- Merkle–Damgård padding: `0x80`, zeros to 56 mod 64, then the 64-bit
bit-length. -/
def sha256Pad (msg : List Nat) : List Nat :=
  msg ++ [128] ++ List.replicate ((119 - msg.length % 64) % 64) 0 ++
    be64 (8 * msg.length)

/-- Split into 64-byte chunks (structural recursion on a fuel bounded by the
list length, so the definition reduces inside `decide`). -/
def chunks64Fuel : Nat → List Nat → List (List Nat)
  | 0, _ => []
  | _, [] => []
  | fuel + 1, x :: rest => ((x :: rest).take 64) :: chunks64Fuel fuel ((x :: rest).drop 64)

def chunks64 (l : List Nat) : List (List Nat) := chunks64Fuel l.length l

/-- `sha256.Sum256` over a byte list, producing the 32 digest bytes. -/
def sha256 (msg : List Nat) : List Nat :=
  (((chunks64 (sha256Pad msg)).foldl sha256Compress sha256H0).map be32).flatten

/-- Every digest byte is a byte (by construction of `be32`). -/
theorem sha256_bytes_lt (msg : List Nat) : ∀ b ∈ sha256 msg, b < 256 := by
  intro b hb
  rw [sha256, List.mem_flatten] at hb
  obtain ⟨l, hl, hbl⟩ := hb
  rw [List.mem_map] at hl
  obtain ⟨w, _, hw⟩ := hl
  subst hw
  simp only [be32, List.mem_cons, List.not_mem_nil, or_false] at hbl
  rcases hbl with h | h | h | h <;> subst h <;> omega

/-! ## Identifier types (src/storage/types.go, second revision) -/

/-- `storage.Serial`: the raw serial bytes recovered from the TBS
certificate (`tbsCertWithRawSerial.SerialNumber.Bytes`). -/
structure Serial where
  serial : List Nat
deriving DecidableEq, Repr

def NewSerialFromBytes (b : List Nat) : Serial := ⟨b⟩

/-- `Serial.ID()`: URL-safe padded base64 of the raw bytes. -/
def Serial.ID (s : Serial) : GoStr := b64Encode s.serial

/-- `Serial.HexString()`: lowercase hex of the raw bytes. -/
def Serial.HexString (s : Serial) : GoStr := hexEncode s.serial

/-- `Serial.Ascii85()`: `ascii85.Encode` of the raw bytes. -/
def Serial.Ascii85 (s : Serial) : GoStr := ascii85Encode s.serial

/-- `NewSerialFromIDString`: `base64.URLEncoding.DecodeString`, propagating
the decode error. -/
def NewSerialFromIDString (s : GoStr) : Option Serial :=
  (b64Decode s).map NewSerialFromBytes

/-- `NewSerialFromHex`: `hex.DecodeString`; the Go function panics on a
decode error, modelled as `none`. -/
def NewSerialFromHex (s : GoStr) : Option Serial :=
  (hexDecode s).map (fun b => ⟨b⟩)

/-- `NewSerialFromAscii85`: `ascii85.Decode` with flushing, requiring full
consumption of the input. -/
def NewSerialFromAscii85 (s : GoStr) : Option Serial :=
  (ascii85Decode s).map (fun b => ⟨b⟩)

/-- `storage.SPKI`. -/
structure SPKI where
  spki : List Nat
deriving DecidableEq, Repr

def SPKI.Sha256DigestURLEncodedBase64 (o : SPKI) : GoStr :=
  b64Encode (sha256 o.spki)

/-- `storage.Issuer`: either constructed from an issuer certificate (carrying
its SPKI) or deserialized from an opaque ID string. -/
inductive Issuer where
  | fromSpki (spki : SPKI)
  | fromString (id : GoStr)
deriving DecidableEq, Repr

/-- `NewIssuer`: wraps the certificate's `RawSubjectPublicKeyInfo`. -/
def NewIssuer (rawSubjectPublicKeyInfo : List Nat) : Issuer :=
  .fromSpki ⟨rawSubjectPublicKeyInfo⟩

def NewIssuerFromString (s : GoStr) : Issuer := .fromString s

/-- `Issuer.ID()`: URL-safe base64 of SHA-256(SPKI) (memoization elided). -/
def Issuer.ID : Issuer → GoStr
  | .fromSpki o => o.Sha256DigestURLEncodedBase64
  | .fromString s => s

/-- `time.Time`, reduced to the observations the repository makes of it:
Unix seconds and nanoseconds.  (`time.Time`'s zero value is identified with
Unix second 0 here; no embedded operation distinguishes them.) -/
structure GoTime where
  sec : Int
  nsec : Int
deriving DecidableEq, Repr

/-- `Time.Unix()`. -/
def GoTime.Unix (t : GoTime) : Int := t.sec

/-- `time.Unix(sec, nsec)`. -/
def timeUnix (sec nsec : Int) : GoTime := ⟨sec, nsec⟩

/-- `storage.CertificateLog` (second revision of types.go). -/
structure CertificateLog where
  ShortURL : GoStr
  MaxEntry : Int
  LastEntryTime : GoTime
deriving DecidableEq, Repr

/-- `CertificateLogIDFromShortURL`: padded URL-safe base64 of the short URL
bytes. -/
def CertificateLogIDFromShortURL (shortURL : GoStr) : GoStr :=
  b64Encode shortURL

def CertificateLog.ID (o : CertificateLog) : GoStr :=
  CertificateLogIDFromShortURL o.ShortURL

/-- C4: serial encodings round-trip through all three alphabets. -/
theorem serial_encoding_roundtrip (s : Serial) (h : ∀ b ∈ s.serial, b < 256) :
    NewSerialFromIDString (Serial.ID s) = some s ∧
    NewSerialFromHex (Serial.HexString s) = some s ∧
    NewSerialFromAscii85 (Serial.Ascii85 s) = some s := by
  obtain ⟨l⟩ := s
  refine ⟨?_, ?_, ?_⟩
  · simp [NewSerialFromIDString, Serial.ID, b64Decode_b64Encode l h,
      NewSerialFromBytes]
  · simp [NewSerialFromHex, Serial.HexString, hexDecode_hexEncode l h]
  · simp [NewSerialFromAscii85, Serial.Ascii85, ascii85Decode_ascii85Encode l h]

/-- Witness for C4 at the concrete serial `0x00dead` (leading zero byte). -/
theorem serial_encoding_roundtrip_witness :
    (∀ b ∈ (Serial.mk [0, 222, 173]).serial, b < 256) ∧
    (NewSerialFromIDString (Serial.ID ⟨[0, 222, 173]⟩) = some ⟨[0, 222, 173]⟩ ∧
     NewSerialFromHex (Serial.HexString ⟨[0, 222, 173]⟩) = some ⟨[0, 222, 173]⟩ ∧
     NewSerialFromAscii85 (Serial.Ascii85 ⟨[0, 222, 173]⟩) = some ⟨[0, 222, 173]⟩) :=
  ⟨by decide, serial_encoding_roundtrip ⟨[0, 222, 173]⟩ (by decide)⟩

/-! ## Firestore-shaped document backend (src/storage/firestorebackend.go)

Documents are field maps stored at slash-separated paths.  `doc.Set` is an
upsert, `doc.Create` fails with `AlreadyExists` on an existing path, and
`doc.Get` fails with `NotFound` on a missing one.  `filepath.Join` is
modelled as `/`-concatenation; `path.Clean` is the identity on every path
the backend builds from its date / base64 segments.  The `doc == nil`
failure paths of the Go code cannot occur in this model (the client always
returns a document handle for a well-formed path). -/

inductive FsVal where
  | str (s : GoStr)
  | int (i : Int)
  | bytes (b : List Nat)
deriving DecidableEq, Repr

abbrev FsDoc := List (GoStr × FsVal)

structure FirestoreState where
  docs : List (GoStr × FsDoc)
  collisions : Nat
  successes : Nat
deriving DecidableEq, Repr

def emptyFirestore : FirestoreState := ⟨[], 0, 0⟩

/-- gRPC status codes observed by the backend, plus `panicked` marking the
`len(expDate) == 0` guard that panics in Go (no claim exercises it). -/
inductive GrpcCode where
  | alreadyExists
  | notFound
  | deadlineExceeded
  | panicked
  | unknown
deriving DecidableEq, Repr

def kFieldType : GoStr := gostr "type"
def kFieldData : GoStr := gostr "data"
def kFieldExpDate : GoStr := gostr "expDate"
def kFieldIssuer : GoStr := gostr "issuer"
def kFieldURL : GoStr := gostr "shortUrl"
def kFieldUnixTime : GoStr := gostr "unixTime"
def kTypePEM : GoStr := gostr "PEM"
def kTypeLogState : GoStr := gostr "LogState"
def kTypeExpDate : GoStr := gostr "ExpDate"
def kTypeMetadata : GoStr := gostr "Metadata"

/-- `doc.Set`: upsert the whole document. -/
def docSet (st : FirestoreState) (path : GoStr) (fields : FsDoc) : FirestoreState :=
  { st with docs := aset st.docs path fields }

/-- `doc.Create`: create-only write. -/
def docCreate (st : FirestoreState) (path : GoStr) (fields : FsDoc) :
    Except GrpcCode FirestoreState :=
  match alookup st.docs path with
  | some _ => .error .alreadyExists
  | none => .ok { st with docs := aset st.docs path fields }

/-- `doc.Get`. -/
def docGet (st : FirestoreState) (path : GoStr) : Except GrpcCode FsDoc :=
  match alookup st.docs path with
  | some d => .ok d
  | none => .error .notFound

/-- `filepath.Join("ct", expDate, "issuer", issuer.ID(), "certs", serial.ID())`. -/
def pemDocPath (expDate : GoStr) (issuer : Issuer) (serial : Serial) : GoStr :=
  gostr "ct/" ++ expDate ++ gostr "/issuer/" ++ issuer.ID ++ gostr "/certs/" ++
    serial.ID

def expDateDocPath (expDate : GoStr) : GoStr := gostr "ct/" ++ expDate

def issuerDocPath (expDate : GoStr) (issuer : Issuer) : GoStr :=
  gostr "ct/" ++ expDate ++ gostr "/issuer/" ++ issuer.ID

/-- `logNameToId`: unpadded URL-safe base64 of SHA-256 of the log URL. -/
def logNameToId (logURL : GoStr) : GoStr := b64EncodeNoPad (sha256 logURL)

/-- `filepath.Join("logs", logNameToId(url))`. -/
def logStateDocPath (shortURL : GoStr) : GoStr :=
  gostr "logs/" ++ logNameToId shortURL

/-- The collision path of `StoreCertificatePEM`: `AlreadyExists` becomes a
counted success, anything else is returned to the caller. -/
def storePEMErrorPath (st : FirestoreState) (e : GrpcCode) :
    FirestoreState × Option GrpcCode :=
  if e = .alreadyExists then ({ st with collisions := st.collisions + 1 }, none)
  else ({ st with successes := st.successes + 1 }, some e)

/-- `FirestoreBackend.StoreCertificatePEM`. -/
def storeCertificatePEM (st : FirestoreState) (serial : Serial) (expDate : GoStr)
    (issuer : Issuer) (b : List Nat) : FirestoreState × Option GrpcCode :=
  if expDate = [] then (st, some .panicked)
  else
    match docCreate st (pemDocPath expDate issuer serial)
        [(kFieldType, .str kTypePEM), (kFieldData, .bytes b)] with
    | .error e => storePEMErrorPath st e
    | .ok st2 => ({ st2 with successes := st2.successes + 1 }, none)

/-- `FirestoreBackend.StoreLogState` (the model's document handles are never
nil, so the operation always succeeds). -/
def storeLogState (st : FirestoreState) (log : CertificateLog) : FirestoreState :=
  docSet st (logStateDocPath log.ShortURL)
    [(kFieldType, .str kTypeLogState), (kFieldURL, .str log.ShortURL),
     (kFieldData, .int log.MaxEntry), (kFieldUnixTime, .int log.LastEntryTime.Unix)]

/-- The error handling of `LoadLogState`: absence primes a brand new log. -/
def loadLogStateErrorPath (logURL : GoStr) (e : GrpcCode) :
    Except GrpcCode CertificateLog :=
  if e = .notFound then .ok { ShortURL := logURL, MaxEntry := 0, LastEntryTime := ⟨0, 0⟩ }
  else .error e

/-- `FirestoreBackend.LoadLogState`.  The `DataAt` misses and failed type
assertions of the Go code collapse to `.unknown`. -/
def loadLogState (st : FirestoreState) (logURL : GoStr) :
    Except GrpcCode CertificateLog :=
  match docGet st (logStateDocPath logURL) with
  | .error e => loadLogStateErrorPath logURL e
  | .ok doc =>
    match alookup doc kFieldURL, alookup doc kFieldData, alookup doc kFieldUnixTime with
    | some (.str url), some (.int maxEntry), some (.int timeSec) =>
      .ok { ShortURL := url, MaxEntry := maxEntry, LastEntryTime := timeUnix timeSec 0 }
    | _, _, _ => .error .unknown

/-- `FirestoreBackend.allocateExpDate` then `allocateIssuerExpDate`
(`AllocateExpDateAndIssuer`). -/
def allocateExpDateAndIssuer (st : FirestoreState) (expDate : GoStr)
    (issuer : Issuer) : FirestoreState :=
  let st1 := docSet st (expDateDocPath expDate)
    [(kFieldType, .str kTypeExpDate), (kFieldExpDate, .str expDate)]
  docSet st1 (issuerDocPath expDate issuer)
    [(kFieldType, .str kTypeMetadata), (kFieldExpDate, .str expDate),
     (kFieldIssuer, .str issuer.ID)]

/-- Is `path` a direct child document of the top-level collection `ct`? -/
def isCtChild (path : GoStr) : Bool :=
  decide (path.take 3 = gostr "ct/") && !(path.drop 3).contains 47

/-- Does the document carry the given `type` field? -/
def docTypeIs (d : FsDoc) (ty : GoStr) : Bool :=
  decide (alookup d kFieldType = some (.str ty))

/-- `FirestoreBackend.StreamExpirationDates`: all documents of the `ct`
collection whose `type` is `ExpDate`, as their document ids.  The
`aNotBefore` argument is bound but never consulted by the Go code. -/
def streamExpirationDates (st : FirestoreState) (aNotBefore : GoTime) : List GoStr :=
  (st.docs.filter (fun kv => isCtChild kv.1 && docTypeIs kv.2 kTypeExpDate)).map
    (fun kv => kv.1.drop 3)

/-- `FirestoreBackend.ListExpirationDates` drains the stream. -/
def listExpirationDates (st : FirestoreState) (aNotBefore : GoTime) : List GoStr :=
  streamExpirationDates st aNotBefore

/-! ## Mock durable backend (src/storage/mockbackend.go), the slice needed
for checkpoint loading.  `json.Marshal`/`Unmarshal` of a `CertificateLog`
round-trips, so the stored value is modelled as the record itself. -/

structure MockBackend where
  store : List (GoStr × CertificateLog)
deriving DecidableEq, Repr

def emptyMockBackend : MockBackend := ⟨[]⟩

/-- `MockBackend.StoreLogState`. -/
def mockStoreLogState (db : MockBackend) (log : CertificateLog) : MockBackend :=
  { db with store := aset db.store (gostr "logstate" ++ log.ShortURL) log }

/-- `MockBackend.LoadLogState`: stored value if present, else a zero-valued
checkpoint carrying the requested URL; never an error on absence. -/
def mockLoadLogState (db : MockBackend) (logURL : GoStr) :
    Except GrpcCode CertificateLog :=
  match alookup db.store (gostr "logstate" ++ logURL) with
  | some log => .ok log
  | none => .ok { ShortURL := logURL, MaxEntry := 0, LastEntryTime := ⟨0, 0⟩ }

set_option maxRecDepth 100000 in
/-- C5 (counterexample): for the short URL `"x"`, the document id used by
`StoreLogState` is not `logs/<base64(short URL)>`: nothing is stored under
`logs/` ++ `CertificateLogIDFromShortURL "x"` (= `logs/eA==`), and the id
actually used differs from it. -/
theorem logState_id_not_base64_of_shortURL :
    logStateDocPath (gostr "x") ≠ gostr "logs/" ++ CertificateLogIDFromShortURL (gostr "x") ∧
    alookup (storeLogState emptyFirestore ⟨gostr "x", 0, ⟨0, 0⟩⟩).docs
      (gostr "logs/" ++ CertificateLogIDFromShortURL (gostr "x")) = none := by
  constructor
  · decide
  · decide

/-- C5 (amended): a persisted checkpoint is identified by
`logs/<unpadded URL-safe base64 of SHA-256(short URL)>`: `StoreLogState`
writes the checkpoint document exactly under that id, and `logNameToId`
computes it. -/
theorem logState_id_sha256_of_shortURL (st : FirestoreState) (log : CertificateLog) :
    alookup (storeLogState st log).docs
        (gostr "logs/" ++ b64EncodeNoPad (sha256 log.ShortURL)) =
      some [(kFieldType, .str kTypeLogState), (kFieldURL, .str log.ShortURL),
            (kFieldData, .int log.MaxEntry),
            (kFieldUnixTime, .int log.LastEntryTime.Unix)] ∧
    logNameToId log.ShortURL = b64EncodeNoPad (sha256 log.ShortURL) := by
  constructor
  · rw [storeLogState, docSet]
    show alookup (aset st.docs (logStateDocPath log.ShortURL) _) _ = _
    rw [alookup_aset, if_pos]
    rfl
  · rfl

/-- C6: loading a checkpoint for a log URL with no stored document returns a
zero-valued checkpoint with `ShortURL` populated and no error — in the
Firestore backend and in the mock backend alike — and the backend's error
path propagates every failure other than absence. -/
theorem loadLogState_absent_returns_new (st : FirestoreState) (db : MockBackend)
    (url : GoStr)
    (hfs : alookup st.docs (logStateDocPath url) = none)
    (hmb : alookup db.store (gostr "logstate" ++ url) = none) :
    loadLogState st url =
      .ok { ShortURL := url, MaxEntry := 0, LastEntryTime := ⟨0, 0⟩ } ∧
    mockLoadLogState db url =
      .ok { ShortURL := url, MaxEntry := 0, LastEntryTime := ⟨0, 0⟩ } ∧
    ∀ e : GrpcCode, e ≠ .notFound → loadLogStateErrorPath url e = .error e := by
  refine ⟨?_, ?_, ?_⟩
  · rw [loadLogState, docGet, hfs]
    rfl
  · rw [mockLoadLogState, hmb]
  · intro e he
    rw [loadLogStateErrorPath, if_neg he]

/-- Witness for C6 at the empty stores and the short URL `ct.example/log`. -/
theorem loadLogState_absent_returns_new_witness :
    (alookup emptyFirestore.docs (logStateDocPath (gostr "ct.example/log")) = none ∧
     alookup emptyMockBackend.store (gostr "logstate" ++ gostr "ct.example/log") = none) ∧
    (loadLogState emptyFirestore (gostr "ct.example/log") =
       .ok { ShortURL := gostr "ct.example/log", MaxEntry := 0, LastEntryTime := ⟨0, 0⟩ } ∧
     mockLoadLogState emptyMockBackend (gostr "ct.example/log") =
       .ok { ShortURL := gostr "ct.example/log", MaxEntry := 0, LastEntryTime := ⟨0, 0⟩ } ∧
     ∀ e : GrpcCode, e ≠ .notFound →
       loadLogStateErrorPath (gostr "ct.example/log") e = .error e) :=
  ⟨⟨rfl, rfl⟩, loadLogState_absent_returns_new emptyFirestore emptyMockBackend
    (gostr "ct.example/log") rfl rfl⟩

/-- C7: `StoreCertificatePEM` is an idempotent create: writing to an id that
already holds a document is not an error — the collision counter is bumped,
the call reports success, and the store is left unchanged — while the error
path propagates every code other than `AlreadyExists`. -/
theorem storeCertificatePEM_idempotent (st : FirestoreState) (serial : Serial)
    (expDate : GoStr) (issuer : Issuer) (b : List Nat) (d : FsDoc)
    (hne : expDate ≠ [])
    (hdoc : alookup st.docs (pemDocPath expDate issuer serial) = some d) :
    (storeCertificatePEM st serial expDate issuer b).2 = none ∧
    (storeCertificatePEM st serial expDate issuer b).1.collisions = st.collisions + 1 ∧
    (storeCertificatePEM st serial expDate issuer b).1.docs = st.docs ∧
    ∀ (st' : FirestoreState) (e : GrpcCode), e ≠ .alreadyExists →
      (storePEMErrorPath st' e).2 = some e := by
  have hrun : storeCertificatePEM st serial expDate issuer b =
      ({ st with collisions := st.collisions + 1 }, none) := by
    rw [storeCertificatePEM, if_neg hne, docCreate, hdoc]
    rfl
  refine ⟨by rw [hrun], by rw [hrun], by rw [hrun], ?_⟩
  intro st' e he
  rw [storePEMErrorPath, if_neg he]

/-- A one-PEM state used to witness the collision path. -/
def c7Issuer : Issuer := NewIssuerFromString (gostr "issuerA")

def c7Serial : Serial := ⟨[1, 2]⟩

def c7Date : GoStr := gostr "2020-01-01"

def c7State1 : FirestoreState :=
  (storeCertificatePEM emptyFirestore c7Serial c7Date c7Issuer [7]).1

def c7Doc : FsDoc := [(kFieldType, .str kTypePEM), (kFieldData, .bytes [7])]

/-- Witness for C7: a second write of the same serial collides and succeeds. -/
theorem storeCertificatePEM_idempotent_witness :
    (c7Date ≠ [] ∧
     alookup c7State1.docs (pemDocPath c7Date c7Issuer c7Serial) = some c7Doc) ∧
    ((storeCertificatePEM c7State1 c7Serial c7Date c7Issuer [7]).2 = none ∧
     (storeCertificatePEM c7State1 c7Serial c7Date c7Issuer [7]).1.collisions =
       c7State1.collisions + 1 ∧
     (storeCertificatePEM c7State1 c7Serial c7Date c7Issuer [7]).1.docs =
       c7State1.docs ∧
     ∀ (st' : FirestoreState) (e : GrpcCode), e ≠ .alreadyExists →
       (storePEMErrorPath st' e).2 = some e) :=
  ⟨⟨by decide, by decide⟩,
   storeCertificatePEM_idempotent c7State1 c7Serial c7Date c7Issuer [7] c7Doc
     (by decide) (by decide)⟩

/-- C8 (failing input): the Firestore backend's expiration-date enumeration
never consults `notBefore`.  With only the shard `2001-01-01` allocated and
`notBefore` = 2019-11-28 (Unix 1574899200), both the stream and the list
still return `2001-01-01`, a date strictly before `notBefore` — contradicting
the claim (the mock backend, by contrast, filters such dates out). -/
theorem listExpirationDates_ignores_notBefore :
    listExpirationDates
        (allocateExpDateAndIssuer emptyFirestore (gostr "2001-01-01")
          (NewIssuerFromString (gostr "issuerA")))
        ⟨1574899200, 0⟩ = [gostr "2001-01-01"] ∧
    streamExpirationDates
        (allocateExpDateAndIssuer emptyFirestore (gostr "2001-01-01")
          (NewIssuerFromString (gostr "issuerA")))
        ⟨1574899200, 0⟩ = [gostr "2001-01-01"] := by
  constructor
  · decide
  · decide

/-- C10: the checkpoint store/load pair round-trips `ShortURL` and
`MaxEntry` exactly, while `LastEntryTime` comes back truncated to whole Unix
seconds (`StoreLogState` persists `Unix()`; `LoadLogState` rebuilds with
`time.Unix(sec, 0)`). -/
theorem logState_roundtrip_truncates_seconds (st : FirestoreState)
    (log : CertificateLog) :
    loadLogState (storeLogState st log) log.ShortURL =
      .ok { ShortURL := log.ShortURL, MaxEntry := log.MaxEntry,
            LastEntryTime := ⟨log.LastEntryTime.sec, 0⟩ } := by
  have hget : docGet (storeLogState st log) (logStateDocPath log.ShortURL) =
      .ok [(kFieldType, .str kTypeLogState), (kFieldURL, .str log.ShortURL),
           (kFieldData, .int log.MaxEntry),
           (kFieldUnixTime, .int log.LastEntryTime.Unix)] := by
    rw [storeLogState, docSet, docGet]
    show (match alookup (aset st.docs (logStateDocPath log.ShortURL) _)
        (logStateDocPath log.ShortURL) with
      | some d => Except.ok d
      | none => Except.error GrpcCode.notFound) = _
    rw [alookup_aset, if_pos rfl]
  have hne1 : kFieldURL ≠ kFieldType := by decide
  have hne2 : kFieldData ≠ kFieldType := by decide
  have hne3 : kFieldData ≠ kFieldURL := by decide
  have hne4 : kFieldUnixTime ≠ kFieldType := by decide
  have hne5 : kFieldUnixTime ≠ kFieldURL := by decide
  have hne6 : kFieldUnixTime ≠ kFieldData := by decide
  simp only [loadLogState, hget, alookup, if_neg hne1, if_neg hne2, if_neg hne3,
    if_neg hne4, if_neg hne5, if_neg hne6, if_pos rfl, timeUnix, GoTime.Unix]
  simp

/-! ## The in-process remote cache (src/unnamed/part_006, `MockRemoteCache`)

`Data` maps keys to sorted slices, `Expirations` holds absolute TTLs.  The
wall clock consulted by `CleanupExpiry` (`time.Now()`) is frozen as the
`now` field: the model describes runs during which the clock does not cross
any TTL boundary. -/

structure CacheState where
  data : List (GoStr × List GoStr)
  expirations : List (GoStr × Int)
  now : Int
deriving DecidableEq, Repr

def newMockRemoteCache (now : Int) : CacheState := ⟨[], [], now⟩

/-- `MockRemoteCache.CleanupExpiry`: drop every key whose TTL timestamp lies
strictly before the current time. -/
def cleanupExpiry (st : CacheState) : CacheState :=
  { st with
    data := st.data.filter (fun kv =>
      match alookup st.expirations kv.1 with
      | some t => !decide (t < st.now)
      | none => true),
    expirations := st.expirations.filter (fun kv => !decide (kv.2 < st.now)) }

/-- `MockRemoteCache.SetInsert` on the whole cache: look up the slice
(missing key reads as the empty slice), insert, and write back only when the
entry was new (the Go code returns before the assignment otherwise). -/
def cacheSetInsert (st : CacheState) (key entry : GoStr) : Bool × CacheState :=
  let l := (alookup st.data key).getD []
  let r := setInsert l entry
  if r.1 then (true, { st with data := aset st.data key r.2 }) else (false, st)

/-- `MockRemoteCache.SetList`: cleanup, then the slice contents. -/
def cacheSetList (st : CacheState) (key : GoStr) : List GoStr :=
  (alookup (cleanupExpiry st).data key).getD []

/-- `MockRemoteCache.Exists`: cleanup (mutating the cache), then key
presence. -/
def cacheExists (st : CacheState) (key : GoStr) : Bool × CacheState :=
  let st2 := cleanupExpiry st
  ((alookup st2.data key).isSome, st2)

/-- `MockRemoteCache.ExpireAt`. -/
def cacheExpireAt (st : CacheState) (key : GoStr) (t : Int) : CacheState :=
  { st with expirations := aset st.expirations key t }

/-- Shape of a successful lookup: it returns a stored binding. -/
theorem alookup_mem {α : Type} (m : List (GoStr × α)) (k : GoStr) (v : α)
    (h : alookup m k = some v) : (k, v) ∈ m := by
  induction m with
  | nil => cases h
  | cons x xs ih =>
    by_cases he : k = x.1
    · subst he
      rw [alookup, if_pos rfl] at h
      obtain ⟨x1, x2⟩ := x
      cases h
      exact List.mem_cons_self _ _
    · rw [alookup, if_neg he] at h
      exact List.mem_cons_of_mem _ (ih h)

/-- No TTL in the cache has expired at the model's frozen clock, so
`CleanupExpiry` deletes nothing. -/
def NoPendingExpiry (st : CacheState) : Prop :=
  ∀ kv ∈ st.expirations, ¬kv.2 < st.now

theorem cleanupExpiry_noop (st : CacheState) (h : NoPendingExpiry st) :
    cleanupExpiry st = st := by
  have hd : st.data.filter (fun kv =>
      match alookup st.expirations kv.1 with
      | some t => !decide (t < st.now)
      | none => true) = st.data := by
    rw [List.filter_eq_self]
    intro kv _
    cases hx : alookup st.expirations kv.1 with
    | none => simp
    | some t =>
      have := h (kv.1, t) (alookup_mem _ kv.1 t hx)
      simpa using this
  have he : st.expirations.filter (fun kv => !decide (kv.2 < st.now))
      = st.expirations := by
    rw [List.filter_eq_self]
    intro kv hkv
    simpa using h kv hkv
  rw [cleanupExpiry, hd, he]

/-! ## URLs (`net/url`), the fragment `addCRL` depends on

`addCRL` trims the string, parses it, branches on `url.Scheme`, and inserts
`url.String()`.  The model splits off the scheme (letters/digits/`+-.`
before the first `:`, first byte a letter, lowercased as Go does) and keeps
the remainder opaque; `String()` re-serializes as `scheme ++ ":" ++ rest`,
which is exactly what Go produces for the scheme-qualified URLs the branch
accepts.  A parse error and a missing scheme both land in the
none-of-the-known-schemes branch, which behaves identically (the entry is
dropped), so errors are folded into an empty scheme. -/

def isSpaceByte (c : Nat) : Bool :=
  c = 32 || c = 9 || c = 10 || c = 11 || c = 12 || c = 13

def trimLeftSpace : GoStr → GoStr
  | [] => []
  | c :: cs => if isSpaceByte c then trimLeftSpace cs else c :: cs

/-- `strings.TrimSpace` (ASCII whitespace). -/
def trimSpace (s : GoStr) : GoStr :=
  (trimLeftSpace (trimLeftSpace s).reverse).reverse

def isAlphaByte (c : Nat) : Bool :=
  (65 ≤ c && c ≤ 90) || (97 ≤ c && c ≤ 122)

def isSchemeByte (c : Nat) : Bool :=
  isAlphaByte c || (48 ≤ c && c ≤ 57) || c = 43 || c = 45 || c = 46

def toLowerByte (c : Nat) : Nat := if 65 ≤ c ∧ c ≤ 90 then c + 32 else c

/-- Scan for `scheme:`; `acc` holds the scheme bytes read so far, reversed. -/
def schemeSplitAux : GoStr → GoStr → Option (GoStr × GoStr)
  | [], _ => none
  | c :: cs, acc =>
    if c = 58 then some ((acc.reverse).map toLowerByte, cs)
    else if isSchemeByte c then schemeSplitAux cs (c :: acc)
    else none

/-- The `(url.Scheme, remainder)` view of `url.Parse`: empty scheme when
the string has none (or fails to parse). -/
def urlScheme (s : GoStr) : GoStr × GoStr :=
  match s with
  | c :: _ =>
    if isAlphaByte c then
      match schemeSplitAux s [] with
      | some r => r
      | none => ([], s)
    else ([], s)
  | [] => ([], [])

/-- `url.String()` for a scheme-qualified URL. -/
def urlString (p : GoStr × GoStr) : GoStr := p.1 ++ gostr ":" ++ p.2

/-! ## Certificates, as observed by the storage layer

`x509.Certificate` is external; the model records exactly the observations
the embedded code makes of one: its `NotAfter` formatted as `2006-01-02`
(the only use of `NotAfter` besides `markDirty`, which formats it the same
way), `Issuer.String()`, `CRLDistributionPoints`, the raw TBS serial bytes
(`NewSerial` re-parses the TBS for them), `RawSubjectPublicKeyInfo`, and the
raw DER. -/

structure XCert where
  notAfterDate : GoStr
  issuerDN : GoStr
  crlDPs : List GoStr
  serialBytes : List Nat
  rawSPKI : List Nat
  raw : List Nat
deriving DecidableEq, Repr

/-- `NewSerial`. -/
def NewSerial (cert : XCert) : Serial := ⟨cert.serialBytes⟩

/-! ## IssuerMetadata (src/unnamed/part_005, cache-backed revision) -/

/-- `IssuerMetadata.id()`: `<expDate>::<issuerID>`. -/
def imId (expDate : GoStr) (issuer : Issuer) : GoStr :=
  expDate ++ gostr "::" ++ issuer.ID

/-- The `crl::<expDate>::<issuerID>` sorted-set key. -/
def crlsKey (expDate : GoStr) (issuer : Issuer) : GoStr :=
  gostr "crl::" ++ imId expDate issuer

/-- The `issuer::<expDate>::<issuerID>` sorted-set key. -/
def issuersKey (expDate : GoStr) (issuer : Issuer) : GoStr :=
  gostr "issuer::" ++ imId expDate issuer

/-- `IssuerMetadata.addCRL`: trim and parse the distribution point, skip
`ldap(s)` silently, skip any scheme other than `http(s)` with a debug log,
and insert `url.String()` into the CRL sorted set. -/
def addCRL (st : CacheState) (expDate : GoStr) (issuer : Issuer)
    (aCRL : GoStr) : CacheState :=
  let u := urlScheme (trimSpace aCRL)
  if u.1 = gostr "ldap" ∨ u.1 = gostr "ldaps" then st
  else if u.1 ≠ gostr "http" ∧ u.1 ≠ gostr "https" then st
  else (cacheSetInsert st (crlsKey expDate issuer) (urlString u)).2

/-- `IssuerMetadata.addIssuerDN`. -/
def addIssuerDN (st : CacheState) (expDate : GoStr) (issuer : Issuer)
    (dn : GoStr) : CacheState :=
  (cacheSetInsert st (issuersKey expDate issuer) dn).2

/-- `IssuerMetadata.Accumulate`: record whether the issuer key already
exists, insert the certificate's acceptable CRL distribution points, insert
the issuer DN, and return the pre-existence flag. -/
def accumulate (st : CacheState) (expDate : GoStr) (issuer : Issuer)
    (cert : XCert) : Bool × CacheState :=
  let er := cacheExists st (issuersKey expDate issuer)
  let st2 := cert.crlDPs.foldl (fun s dp => addCRL s expDate issuer dp) er.2
  (er.1, addIssuerDN st2 expDate issuer cert.issuerDN)

/-- `IssuerMetadata.CRLs()`: the CRL sorted-set contents. -/
def crlList (st : CacheState) (expDate : GoStr) (issuer : Issuer) : List GoStr :=
  cacheSetList st (crlsKey expDate issuer)

/-- `IssuerMetadata.Issuers()`. -/
def issuerList (st : CacheState) (expDate : GoStr) (issuer : Issuer) : List GoStr :=
  cacheSetList st (issuersKey expDate issuer)

/-- Does the trimmed distribution point carry an accepted (`http(s)`)
scheme? -/
def acceptedCRLScheme (dp : GoStr) : Prop :=
  (urlScheme (trimSpace dp)).1 = gostr "http" ∨
    (urlScheme (trimSpace dp)).1 = gostr "https"

instance (dp : GoStr) : Decidable (acceptedCRLScheme dp) := by
  unfold acceptedCRLScheme
  infer_instance

/-- A `false` insert result pinpoints a duplicate: the entry was present. -/
theorem setInsert_false_mem : ∀ (l : List GoStr) (e : GoStr),
    (setInsert l e).1 = false → e ∈ l := by
  intro l e
  induction l with
  | nil => simp [setInsert]
  | cons x xs ih =>
    by_cases h1 : bytesLt e x = true
    · simp [setInsert, h1]
    · have h1' : bytesLt e x = false := by
        revert h1
        cases bytesLt e x <;> simp
      by_cases h2 : e = x
      · subst h2
        simp
      · simp only [setInsert, h1', Bool.false_eq_true, if_false, h2]
        intro h
        exact List.mem_cons_of_mem _ (ih h)

/-- The slice a cache key reads as (a missing key reads as empty). -/
def dataAt (st : CacheState) (k : GoStr) : List GoStr :=
  (alookup st.data k).getD []

theorem dataAt_cacheSetInsert_same (st : CacheState) (k e y : GoStr) :
    y ∈ dataAt (cacheSetInsert st k e).2 k ↔ y = e ∨ y ∈ dataAt st k := by
  rw [cacheSetInsert]
  by_cases hf : (setInsert ((alookup st.data k).getD []) e).1 = true
  · simp only [hf, if_true, dataAt, alookup_aset, if_pos rfl, Option.getD_some]
    exact setInsert_mem _ _ _
  · have hf' : (setInsert ((alookup st.data k).getD []) e).1 = false := by
      revert hf
      cases (setInsert ((alookup st.data k).getD []) e).1 <;> simp
    have hmem : e ∈ (alookup st.data k).getD [] := setInsert_false_mem _ _ hf'
    simp only [hf', Bool.false_eq_true, if_false, dataAt]
    constructor
    · exact Or.inr
    · rintro (rfl | h)
      · exact hmem
      · exact h

theorem dataAt_cacheSetInsert_other (st : CacheState) (k e k' : GoStr)
    (h : k' ≠ k) : dataAt (cacheSetInsert st k e).2 k' = dataAt st k' := by
  rw [cacheSetInsert]
  by_cases hf : (setInsert ((alookup st.data k).getD []) e).1 = true
  · simp [hf, dataAt, alookup_aset, h]
  · simp [hf, dataAt]

theorem cacheSetInsert_exps (st : CacheState) (k e : GoStr) :
    (cacheSetInsert st k e).2.expirations = st.expirations ∧
    (cacheSetInsert st k e).2.now = st.now := by
  rw [cacheSetInsert]
  by_cases hf : (setInsert ((alookup st.data k).getD []) e).1 = true <;> simp [hf]

theorem gostr_http : gostr "http" = [104, 116, 116, 112] := by decide

theorem gostr_https : gostr "https" = [104, 116, 116, 112, 115] := by decide

theorem gostr_ldap : gostr "ldap" = [108, 100, 97, 112] := by decide

theorem gostr_ldaps : gostr "ldaps" = [108, 100, 97, 112, 115] := by decide

/-- The effect of `addCRL` on the CRL sorted set: exactly the `http(s)`
distribution points are inserted (as their re-serialized URL). -/
theorem dataAt_addCRL (st : CacheState) (expDate : GoStr) (issuer : Issuer)
    (dp y : GoStr) :
    y ∈ dataAt (addCRL st expDate issuer dp) (crlsKey expDate issuer) ↔
      (acceptedCRLScheme dp ∧ y = urlString (urlScheme (trimSpace dp))) ∨
        y ∈ dataAt st (crlsKey expDate issuer) := by
  rw [addCRL]
  by_cases h1 : (urlScheme (trimSpace dp)).1 = gostr "ldap" ∨
      (urlScheme (trimSpace dp)).1 = gostr "ldaps"
  · rw [if_pos h1]
    have hna : ¬acceptedCRLScheme dp := by
      rw [acceptedCRLScheme]
      rcases h1 with h1 | h1 <;> rw [h1] <;> decide
    simp [hna]
  · rw [if_neg h1]
    by_cases h2 : (urlScheme (trimSpace dp)).1 ≠ gostr "http" ∧
        (urlScheme (trimSpace dp)).1 ≠ gostr "https"
    · rw [if_pos h2]
      have hna : ¬acceptedCRLScheme dp := by
        rw [acceptedCRLScheme]
        push_neg
        exact ⟨h2.1, h2.2⟩
      simp [hna]
    · rw [if_neg h2]
      have ha : acceptedCRLScheme dp := by
        rw [acceptedCRLScheme]
        by_cases hh : (urlScheme (trimSpace dp)).1 = gostr "http"
        · exact Or.inl hh
        · right
          rcases not_and_or.mp h2 with hc | hc
          · exact absurd hh (by simpa using hc)
          · simpa using hc
      rw [dataAt_cacheSetInsert_same]
      constructor
      · rintro (rfl | h)
        · exact Or.inl ⟨ha, rfl⟩
        · exact Or.inr h
      · rintro (⟨_, rfl⟩ | h)
        · exact Or.inl rfl
        · exact Or.inr h

theorem addCRL_other (st : CacheState) (expDate : GoStr) (issuer : Issuer)
    (dp k' : GoStr) (h : k' ≠ crlsKey expDate issuer) :
    dataAt (addCRL st expDate issuer dp) k' = dataAt st k' := by
  rw [addCRL]
  by_cases h1 : (urlScheme (trimSpace dp)).1 = gostr "ldap" ∨
      (urlScheme (trimSpace dp)).1 = gostr "ldaps"
  · rw [if_pos h1]
  · rw [if_neg h1]
    by_cases h2 : (urlScheme (trimSpace dp)).1 ≠ gostr "http" ∧
        (urlScheme (trimSpace dp)).1 ≠ gostr "https"
    · rw [if_pos h2]
    · rw [if_neg h2]
      exact dataAt_cacheSetInsert_other _ _ _ _ h

theorem addCRL_exps (st : CacheState) (expDate : GoStr) (issuer : Issuer)
    (dp : GoStr) :
    (addCRL st expDate issuer dp).expirations = st.expirations ∧
    (addCRL st expDate issuer dp).now = st.now := by
  rw [addCRL]
  by_cases h1 : (urlScheme (trimSpace dp)).1 = gostr "ldap" ∨
      (urlScheme (trimSpace dp)).1 = gostr "ldaps"
  · rw [if_pos h1]
    exact ⟨rfl, rfl⟩
  · rw [if_neg h1]
    by_cases h2 : (urlScheme (trimSpace dp)).1 ≠ gostr "http" ∧
        (urlScheme (trimSpace dp)).1 ≠ gostr "https"
    · rw [if_pos h2]
      exact ⟨rfl, rfl⟩
    · rw [if_neg h2]
      exact cacheSetInsert_exps _ _ _

theorem dataAt_foldl_addCRL (expDate : GoStr) (issuer : Issuer) :
    ∀ (dps : List GoStr) (st : CacheState) (y : GoStr),
    y ∈ dataAt (dps.foldl (fun s dp => addCRL s expDate issuer dp) st)
        (crlsKey expDate issuer) ↔
      (∃ dp ∈ dps, acceptedCRLScheme dp ∧
        y = urlString (urlScheme (trimSpace dp))) ∨
        y ∈ dataAt st (crlsKey expDate issuer) := by
  intro dps
  induction dps with
  | nil => simp
  | cons dp rest ih =>
    intro st y
    rw [List.foldl_cons, ih, dataAt_addCRL]
    constructor
    · rintro (⟨d, hd, hacc, hy⟩ | ⟨hacc, hy⟩ | hmem)
      · exact Or.inl ⟨d, List.mem_cons_of_mem _ hd, hacc, hy⟩
      · exact Or.inl ⟨dp, List.mem_cons_self _ _, hacc, hy⟩
      · exact Or.inr hmem
    · rintro (⟨d, hd, hacc, hy⟩ | hmem)
      · rcases List.mem_cons.mp hd with rfl | hd'
        · exact Or.inr (Or.inl ⟨hacc, hy⟩)
        · exact Or.inl ⟨d, hd', hacc, hy⟩
      · exact Or.inr (Or.inr hmem)

theorem foldl_addCRL_exps (expDate : GoStr) (issuer : Issuer) :
    ∀ (dps : List GoStr) (st : CacheState),
    (dps.foldl (fun s dp => addCRL s expDate issuer dp) st).expirations =
      st.expirations ∧
    (dps.foldl (fun s dp => addCRL s expDate issuer dp) st).now = st.now := by
  intro dps
  induction dps with
  | nil => exact fun st => ⟨rfl, rfl⟩
  | cons dp rest ih =>
    intro st
    rw [List.foldl_cons]
    rcases ih (addCRL st expDate issuer dp) with ⟨h1, h2⟩
    rcases addCRL_exps st expDate issuer dp with ⟨h3, h4⟩
    exact ⟨h1.trans h3, h2.trans h4⟩

theorem gostr_crlPrefix : gostr "crl::" = [99, 114, 108, 58, 58] := by decide

theorem gostr_issuerPrefix :
    gostr "issuer::" = [105, 115, 115, 117, 101, 114, 58, 58] := by decide

theorem crlsKey_ne_issuersKey (e : GoStr) (i : Issuer) (e' : GoStr) (i' : Issuer) :
    crlsKey e i ≠ issuersKey e' i' := by
  intro h
  have h1 : (crlsKey e i).head? = some 99 := by
    rw [crlsKey, gostr_crlPrefix]
    rfl
  have h2 : (issuersKey e' i').head? = some 105 := by
    rw [issuersKey, gostr_issuerPrefix]
    rfl
  rw [h, h2] at h1
  simp at h1

/-- The E3 certificate of the specification: four distribution points, one
`ldap`, one duplicate. -/
def e3Cert : XCert :=
  { notAfterDate := gostr "2020-01-01", issuerDN := gostr "CN=X",
    crlDPs := [gostr "http://a/crl", gostr "ldap://b", gostr "https://c/crl",
      gostr "http://a/crl"],
    serialBytes := [1], rawSPKI := [1], raw := [1] }

/-- C3: `Accumulate` inserts into the shard's CRL sorted set exactly the
distribution-point URLs whose scheme is `http` or `https` — `ldap(s)` URLs
are skipped silently, other schemes are dropped with only a debug log, and
the loop continues either way — and on the concrete E3 certificate
(`["http://a/crl", "ldap://b", "https://c/crl", "http://a/crl"]`) a fresh
shard's `CRLs()` comes back as exactly `["http://a/crl", "https://c/crl"]`,
in sort order. -/
theorem accumulate_crl_schemes (st : CacheState) (expDate : GoStr)
    (issuer : Issuer) (cert : XCert) (y : GoStr) (hexp : NoPendingExpiry st) :
    (y ∈ crlList (accumulate st expDate issuer cert).2 expDate issuer ↔
      (∃ dp ∈ cert.crlDPs, acceptedCRLScheme dp ∧
        y = urlString (urlScheme (trimSpace dp))) ∨
        y ∈ crlList st expDate issuer) ∧
    crlList (accumulate (newMockRemoteCache 0) (gostr "2020-01-01")
        (NewIssuerFromString (gostr "I")) e3Cert).2 (gostr "2020-01-01")
        (NewIssuerFromString (gostr "I")) =
      [gostr "http://a/crl", gostr "https://c/crl"] := by
  constructor
  · rw [accumulate]
    have hclean : cleanupExpiry st = st := cleanupExpiry_noop st hexp
    have hexists : (cacheExists st (issuersKey expDate issuer)).2 = st := by
      rw [cacheExists, hclean]
    rw [hexists]
    set stMid := cert.crlDPs.foldl (fun s dp => addCRL s expDate issuer dp) st with hmid
    have hexpMid : NoPendingExpiry stMid := by
      rcases foldl_addCRL_exps expDate issuer cert.crlDPs st with ⟨h1, h2⟩
      intro kv hkv
      rw [h2]
      exact hexp kv (h1 ▸ hkv)
    have hexpFin : NoPendingExpiry (addIssuerDN stMid expDate issuer cert.issuerDN) := by
      rw [addIssuerDN]
      rcases cacheSetInsert_exps stMid (issuersKey expDate issuer) cert.issuerDN
        with ⟨h1, h2⟩
      intro kv hkv
      rw [h2]
      exact hexpMid kv (h1 ▸ hkv)
    have hread : crlList (addIssuerDN stMid expDate issuer cert.issuerDN)
        expDate issuer =
        dataAt (addIssuerDN stMid expDate issuer cert.issuerDN)
          (crlsKey expDate issuer) := by
      rw [crlList, cacheSetList, cleanupExpiry_noop _ hexpFin, dataAt]
    rw [hread, addIssuerDN,
      dataAt_cacheSetInsert_other _ _ _ _ (crlsKey_ne_issuersKey _ _ _ _),
      dataAt_foldl_addCRL]
    rw [crlList, cacheSetList, hclean, dataAt]
  · decide

/-- Witness for C3: the general clause applied to the fresh cache, the E3
certificate, and the member `http://a/crl`. -/
theorem accumulate_crl_schemes_witness :
    NoPendingExpiry (newMockRemoteCache 0) ∧
    ((gostr "http://a/crl" ∈ crlList
        (accumulate (newMockRemoteCache 0) (gostr "2020-01-01")
          (NewIssuerFromString (gostr "I")) e3Cert).2 (gostr "2020-01-01")
        (NewIssuerFromString (gostr "I")) ↔
      (∃ dp ∈ e3Cert.crlDPs, acceptedCRLScheme dp ∧
        gostr "http://a/crl" = urlString (urlScheme (trimSpace dp))) ∨
        gostr "http://a/crl" ∈ crlList (newMockRemoteCache 0) (gostr "2020-01-01")
          (NewIssuerFromString (gostr "I"))) ∧
    crlList (accumulate (newMockRemoteCache 0) (gostr "2020-01-01")
        (NewIssuerFromString (gostr "I")) e3Cert).2 (gostr "2020-01-01")
        (NewIssuerFromString (gostr "I")) =
      [gostr "http://a/crl", gostr "https://c/crl"]) :=
  ⟨(fun kv hkv => by cases hkv),
   accumulate_crl_schemes (newMockRemoteCache 0) (gostr "2020-01-01")
     (NewIssuerFromString (gostr "I")) e3Cert (gostr "http://a/crl")
     (fun kv hkv => by cases hkv)⟩

/-! ## Serial streaming (src/storage/firestorebackend.go, lines 311–378)

`StreamSerialsForExpirationDateAndIssuer` pages over the shard's `certs`
collection with `Limit(4096)` and an explicit offset.  The collection is
modelled as the stable, index-ordered list of its document ids; per-query
deadline faults are injected through a schedule, one entry per loop
iteration: an iterator either runs a window to completion, or errors
(deadline-exceeded or otherwise) after yielding `j` documents. -/

inductive PageEnd where
  | complete
  | deadline (j : Nat)
  | failAfter (j : Nat)
deriving DecidableEq, Repr

inductive StreamOutcome where
  | done
  | failed
  | outOfFuel
deriving DecidableEq, Repr

/-- `processSerialDocumentQuery` on one window: scan the yielded documents,
decode each id with `NewSerialFromIDString` (an invalid id is logged and
skipped — and, crucially, not counted), and report
`(err, serials sent, count)`.  `some true` is a deadline-exceeded error,
`some false` any other error. -/
def processSerialDocumentQuery (page : List GoStr) (pe : PageEnd) :
    Option Bool × List Serial × Nat :=
  let scanned := match pe with
    | .complete => page
    | .deadline j => page.take j
    | .failAfter j => page.take j
  let serials := scanned.filterMap NewSerialFromIDString
  let err : Option Bool := match pe with
    | .complete => none
    | .deadline _ => some true
    | .failAfter _ => some false
  (err, serials, serials.length)

/-- The producer goroutine's loop: `offset += count` happens before the
error check; deadline-exceeded retries from the advanced offset; any other
error ends the stream (`failed` = channel closed after an error log);
`count == 0` on a clean window ends it normally. -/
def streamSerialsLoop (docs : List GoStr) (limit : Nat) :
    List PageEnd → Nat → List Serial → List Serial × StreamOutcome
  | [], _, acc => (acc, .outOfFuel)
  | pe :: sched, offset, acc =>
    let r := processSerialDocumentQuery ((docs.drop offset).take limit) pe
    let offset2 := offset + r.2.2
    let acc2 := acc ++ r.2.1
    match r.1 with
    | some true => streamSerialsLoop docs limit sched offset2 acc2
    | some false => (acc2, .failed)
    | none => if r.2.2 = 0 then (acc2, .done)
              else streamSerialsLoop docs limit sched offset2 acc2

/-- `StreamSerialsForExpirationDateAndIssuer`: the loop with `Limit(4096)`,
starting from offset 0. -/
def streamSerialsForExpirationDateAndIssuer (docs : List GoStr)
    (sched : List PageEnd) : List Serial × StreamOutcome :=
  streamSerialsLoop docs 4096 sched 0 []

theorem length_filterMap_of_isSome {α β : Type} (f : α → Option β) :
    ∀ l : List α, (∀ x ∈ l, (f x).isSome) → (l.filterMap f).length = l.length := by
  intro l
  induction l with
  | nil => simp
  | cons x xs ih =>
    intro h
    have hx : (f x).isSome := h x (by simp)
    cases hfx : f x with
    | none => rw [hfx] at hx; cases hx
    | some y =>
      rw [List.filterMap_cons, hfx]
      simp only [List.length_cons]
      rw [ih (fun a ha => h a (by simp [ha]))]

theorem drop_length_take {α : Type} (l : List α) (m : Nat) :
    l.drop (l.take m).length = l.drop m := by
  rw [List.length_take]
  rcases le_or_lt l.length m with h | h
  · rw [Nat.min_eq_right h, List.drop_length, List.drop_eq_nil_of_le h]
  · rw [Nat.min_eq_left (Nat.le_of_lt h)]

/-- Main loop lemma: a normally terminated run delivers the accumulator plus
every remaining document's serial, in order, exactly once — whatever the
deadline-exceeded schedule. -/
theorem streamSerialsLoop_done (docs : List GoStr)
    (hvalid : ∀ d ∈ docs, (NewSerialFromIDString d).isSome) :
    ∀ (sched : List PageEnd), (∀ pe ∈ sched, ∀ j, pe ≠ .failAfter j) →
    ∀ (offset : Nat) (acc em : List Serial),
    streamSerialsLoop docs 4096 sched offset acc = (em, .done) →
    em = acc ++ (docs.drop offset).filterMap NewSerialFromIDString := by
  intro sched
  induction sched with
  | nil =>
    intro _ offset acc em h
    rw [streamSerialsLoop] at h
    cases h
  | cons pe sched ih =>
    intro hde offset acc em h
    have hde' : ∀ p ∈ sched, ∀ j, p ≠ PageEnd.failAfter j :=
      fun p hp => hde p (List.mem_cons_of_mem _ hp)
    have hvalid' : ∀ d ∈ (docs.drop offset).take 4096,
        (NewSerialFromIDString d).isSome :=
      fun d hd => hvalid d (List.drop_subset _ _ (List.take_subset _ _ hd))
    cases pe with
    | failAfter j => exact absurd rfl (hde _ (List.mem_cons_self _ _) j)
    | complete =>
      rw [streamSerialsLoop, processSerialDocumentQuery] at h
      simp only at h
      set l := (docs.drop offset).take 4096 with hl
      have hcount : (l.filterMap NewSerialFromIDString).length = l.length :=
        length_filterMap_of_isSome _ l hvalid'
      by_cases hz : (l.filterMap NewSerialFromIDString).length = 0
      · rw [if_pos hz] at h
        have hem : acc ++ l.filterMap NewSerialFromIDString = em :=
          congrArg Prod.fst h
        have hlenl : l.length = 0 := by omega
        have hmin : l.length = min 4096 (docs.drop offset).length := by
          rw [hl, List.length_take]
        have hlen0 : (docs.drop offset).length = 0 := by omega
        have hnil : docs.drop offset = [] := List.length_eq_zero.mp hlen0
        have hfnil : l.filterMap NewSerialFromIDString = [] :=
          List.length_eq_zero.mp hz
        rw [← hem, hnil, hfnil]
        simp
      · rw [if_neg hz] at h
        have := ih hde' (offset + (l.filterMap NewSerialFromIDString).length)
          (acc ++ l.filterMap NewSerialFromIDString) em h
        rw [this, List.append_assoc]
        congr 1
        have hdrop : docs.drop (offset + (l.filterMap NewSerialFromIDString).length)
            = (docs.drop offset).drop 4096 := by
          rw [hcount, hl, ← List.drop_drop, drop_length_take]
        rw [hdrop, ← List.filterMap_append, hl, List.take_append_drop]
    | deadline j =>
      rw [streamSerialsLoop, processSerialDocumentQuery] at h
      simp only at h
      set l := ((docs.drop offset).take 4096).take j with hl
      have hvalid'' : ∀ d ∈ l, (NewSerialFromIDString d).isSome :=
        fun d hd => hvalid' d (List.take_subset _ _ hd)
      have hcount : (l.filterMap NewSerialFromIDString).length = l.length :=
        length_filterMap_of_isSome _ l hvalid''
      have := ih hde' (offset + (l.filterMap NewSerialFromIDString).length)
        (acc ++ l.filterMap NewSerialFromIDString) em h
      rw [this, List.append_assoc]
      congr 1
      have hlmin : l = (docs.drop offset).take (min j 4096) := by
        rw [hl, List.take_take]
      have hdrop : docs.drop (offset + (l.filterMap NewSerialFromIDString).length)
          = (docs.drop offset).drop (min j 4096) := by
        rw [hcount, hlmin, ← List.drop_drop, drop_length_take]
      rw [hdrop, hlmin, ← List.filterMap_append, List.take_append_drop]

/-- C9: the serial stream pages with limit 4096 and an offset advanced by
the number of documents actually delivered; a deadline-exceeded error
retries from that offset, so a run that terminates normally emits exactly
the stored serials, in order, each exactly once; any other error ends the
stream at once (the channel closes after the documents already delivered),
without consuming the rest of the schedule. -/
theorem streamSerials_exactly_once (docs : List GoStr) (sched : List PageEnd)
    (em : List Serial)
    (hvalid : ∀ d ∈ docs, (NewSerialFromIDString d).isSome)
    (hde : ∀ pe ∈ sched, ∀ j, pe ≠ .failAfter j) :
    (streamSerialsForExpirationDateAndIssuer docs sched = (em, .done) →
      em = docs.filterMap NewSerialFromIDString) ∧
    ∀ (offset : Nat) (acc : List Serial) (j : Nat) (sched' : List PageEnd),
      streamSerialsLoop docs 4096 (.failAfter j :: sched') offset acc =
        (acc ++ (((docs.drop offset).take 4096).take j).filterMap
          NewSerialFromIDString, .failed) := by
  constructor
  · intro h
    have := streamSerialsLoop_done docs hvalid sched hde 0 [] em h
    simpa using this
  · intro offset acc j sched'
    rw [streamSerialsLoop, processSerialDocumentQuery]

/-- Witness for C9: three stored serials, a deadline-exceeded after the
first document, then clean windows; the run terminates normally and yields
the three serials exactly once.  The failure clause is exercised at a
concrete window too. -/
theorem streamSerials_exactly_once_witness :
    ((∀ d ∈ [b64Encode [1], b64Encode [2], b64Encode [3]],
        (NewSerialFromIDString d).isSome) ∧
     (∀ pe ∈ [PageEnd.deadline 1, PageEnd.complete, PageEnd.complete],
        ∀ j, pe ≠ .failAfter j)) ∧
    ((streamSerialsForExpirationDateAndIssuer
        [b64Encode [1], b64Encode [2], b64Encode [3]]
        [PageEnd.deadline 1, PageEnd.complete, PageEnd.complete] =
          ([⟨[1]⟩, ⟨[2]⟩, ⟨[3]⟩], .done) →
      [(⟨[1]⟩ : Serial), ⟨[2]⟩, ⟨[3]⟩] =
        ([b64Encode [1], b64Encode [2], b64Encode [3]]).filterMap
          NewSerialFromIDString) ∧
     ∀ (offset : Nat) (acc : List Serial) (j : Nat) (sched' : List PageEnd),
       streamSerialsLoop [b64Encode [1], b64Encode [2], b64Encode [3]] 4096
           (.failAfter j :: sched') offset acc =
         (acc ++ ((([b64Encode [1], b64Encode [2], b64Encode [3]].drop
             offset).take 4096).take j).filterMap NewSerialFromIDString,
          .failed)) :=
  by
  have hv : ∀ d ∈ [b64Encode [1], b64Encode [2], b64Encode [3]],
      (NewSerialFromIDString d).isSome := by decide
  have hde : ∀ pe ∈ [PageEnd.deadline 1, PageEnd.complete, PageEnd.complete],
      ∀ j, pe ≠ PageEnd.failAfter j := by
    intro pe hpe j
    fin_cases hpe <;> simp
  exact ⟨⟨hv, hde⟩,
    streamSerials_exactly_once [b64Encode [1], b64Encode [2], b64Encode [3]]
      [PageEnd.deadline 1, PageEnd.complete, PageEnd.complete]
      [⟨[1]⟩, ⟨[2]⟩, ⟨[3]⟩] hv hde⟩

/-! ## The certificate database façade (src/unnamed/part_002, lines 229–364,
the lock-free revision the spec follows per O1)

`FilesystemDatabase.Store` composes `KnownCertificates.WasUnknown`,
`IssuerMetadata.Accumulate`, `AllocateExpDateAndIssuer`,
`SetExpiryFlag`, and `StoreCertificatePEM` over the remote cache and the
Firestore backend (`MarkDirty` is a no-op there).  `KnownCertificates`
itself is not under src/ (only its callers and tests are), so its two
operations are modelled from the spec, §4.3. -/

/-- Modelled from the spec: `KnownCertificates` is missing from src/; per
§4.3 and §6 its key is `serials::<expDate>::<issuerID>`. -/
def serialsKey (expDate iID : GoStr) : GoStr :=
  gostr "serials::" ++ expDate ++ gostr "::" ++ iID

/-- Modelled from the spec: `KnownCertificates.WasUnknown(serial)` performs
the atomic test-and-insert `SortedInsert(serialsKey, serial.ID())` and
returns the insert result (§4.3). -/
def wasUnknown (st : CacheState) (expDate : GoStr) (issuer : Issuer)
    (serial : Serial) : Bool × CacheState :=
  cacheSetInsert st (serialsKey expDate issuer.ID) serial.ID

/-- Modelled from the spec: `SetExpiryFlag` "attaches a TTL to the serial
key equal to `expDate + slack`" (§4.3).  `dateCode` reads the digits of
`YYYY-MM-DD` as the numeral `YYYYMMDD`, an order-embedding of calendar
dates; the theorems below constrain the flag only through the
no-expiry-during-the-run hypothesis, so any order-embedding serves. -/
def dateCode (d : GoStr) : Int :=
  (d.foldl (fun a b => if 48 ≤ b ∧ b ≤ 57 then a * 10 + (b - 48) else a) 0 : Nat)

def kExpiryFlagSlack : Int := 86400

def expiryFlagTime (expDate : GoStr) : Int :=
  dateCode expDate * 86400 + kExpiryFlagSlack

/-- Modelled from the spec (§4.3): attach the TTL to the shard's serial
key. -/
def setExpiryFlag (st : CacheState) (expDate : GoStr) (issuer : Issuer) :
    CacheState :=
  cacheExpireAt st (serialsKey expDate issuer.ID) (expiryFlagTime expDate)

/-- The two-tier state `Store` manipulates: remote cache plus document
backend. -/
structure SysState where
  cache : CacheState
  fs : FirestoreState
deriving DecidableEq, Repr

def initialSysState (now : Int) : SysState :=
  ⟨newMockRemoteCache now, emptyFirestore⟩

/-- One call to `Store(cert, issuerCert, logURL, entryId)`. -/
structure Submission where
  cert : XCert
  issuerCert : XCert
  logURL : GoStr
  entryId : Int
deriving DecidableEq, Repr

def subExpDate (sub : Submission) : GoStr := sub.cert.notAfterDate

def subIssuerID (sub : Submission) : GoStr :=
  (NewIssuer sub.issuerCert.rawSPKI).ID

/-- Trace events: each `StoreCertificatePEM` call `Store` issues. -/
inductive StoreEv where
  | pemWrite (expDate : GoStr) (issuerID : GoStr) (serial : Serial)
deriving DecidableEq, Repr

/-- `FilesystemDatabase.Store`: format the shard date, derive the issuer,
test-and-insert the serial; only when it was unknown, accumulate metadata,
allocate the shard and set the expiry flag on first sight of the issuer
key, and write the PEM document.  `MarkDirty` is the Firestore no-op.  The
PEM body is the certificate's DER (`pem.EncodeToMemory`'s armor and the
`Log`/`Recorded-at`/`Entry-id` headers are carried opaquely — nothing in the
embedded code reads them back). -/
def fsdbStore (st : SysState) (sub : Submission) : SysState × List StoreEv :=
  let expDate := sub.cert.notAfterDate
  let issuer := NewIssuer sub.issuerCert.rawSPKI
  let serialNum := NewSerial sub.cert
  let r1 := wasUnknown st.cache expDate issuer serialNum
  if r1.1 then
    let r2 := accumulate r1.2 expDate issuer sub.cert
    let cache3 := if r2.1 then r2.2 else setExpiryFlag r2.2 expDate issuer
    let fs3 := if r2.1 then st.fs else allocateExpDateAndIssuer st.fs expDate issuer
    let r3 := storeCertificatePEM fs3 serialNum expDate issuer sub.cert.raw
    (⟨cache3, r3.1⟩, [.pemWrite expDate issuer.ID serialNum])
  else
    (⟨r1.2, st.fs⟩, [])

/-- A sequence of `Store` calls, with the concatenated trace. -/
def runStores : SysState → List Submission → SysState × List StoreEv
  | st, [] => (st, [])
  | st, sub :: rest =>
    let r := fsdbStore st sub
    let r2 := runStores r.1 rest
    (r2.1, r.2 ++ r2.2)

/-- The serials submitted to shard `(e, i)`, in submission order. -/
def shardSerials (subs : List Submission) (e i : GoStr) : List Serial :=
  subs.filterMap (fun sub =>
    if subExpDate sub = e ∧ subIssuerID sub = i then some (NewSerial sub.cert)
    else none)

/-- `StoreCertificatePEM` calls issued for shard `(e, i)`. -/
def countPem (tr : List StoreEv) (e i : GoStr) : Nat :=
  tr.countP (fun ev => match ev with
    | .pemWrite e' i' _ => decide (e' = e ∧ i' = i))

/-- The shard's known-set as read from the cache. -/
def knownList (st : SysState) (e i : GoStr) : List GoStr :=
  dataAt st.cache (serialsKey e i)

/-- The known-set contents predicted from the submissions: the sorted
dedup of the submitted serial IDs. -/
def foldInsert (l : List GoStr) : List GoStr :=
  l.foldl (fun acc s => (setInsert acc s).2) []

def NoColon (s : GoStr) : Prop := 58 ∉ s

def NoSlash (s : GoStr) : Prop := 47 ∉ s

/-- `NotAfter.Format("2006-01-02")` output shape: digits and dashes only,
nonempty. -/
def DateShaped (s : GoStr) : Prop :=
  (∀ b ∈ s, (48 ≤ b ∧ b ≤ 57) ∨ b = 45) ∧ s ≠ []

/-- A submission as `Store` actually receives one from the log follower:
a formatted date and byte-valued serial bytes. -/
def GoodSub (sub : Submission) : Prop :=
  DateShaped sub.cert.notAfterDate ∧ ∀ b ∈ sub.cert.serialBytes, b < 256

theorem DateShaped.noColon {s : GoStr} (h : DateShaped s) : NoColon s := by
  intro hmem
  rcases h.1 58 hmem with ⟨h1, h2⟩ | h1 <;> omega

theorem b64Char_ne_47_58 (i : Nat) : b64Char i ≠ 47 ∧ b64Char i ≠ 58 := by
  rw [b64Char]
  split_ifs <;> omega

theorem b64Encode_no_47_58 : ∀ l : List Nat, NoSlash (b64Encode l) ∧
    NoColon (b64Encode l)
  | [] => by simp [b64Encode, NoSlash, NoColon]
  | [b1] => by
    simp only [b64Encode, NoSlash, NoColon, List.mem_cons, List.not_mem_nil]
    constructor <;> rintro (h | h | h | h | h) <;>
      first
        | exact absurd h.symm (b64Char_ne_47_58 _).1
        | exact absurd h.symm (b64Char_ne_47_58 _).2
        | omega
        | cases h
  | [b1, b2] => by
    simp only [b64Encode, NoSlash, NoColon, List.mem_cons, List.not_mem_nil]
    constructor <;> rintro (h | h | h | h | h) <;>
      first
        | exact absurd h.symm (b64Char_ne_47_58 _).1
        | exact absurd h.symm (b64Char_ne_47_58 _).2
        | omega
        | cases h
  | b1 :: b2 :: b3 :: rest => by
    have ih := b64Encode_no_47_58 rest
    simp only [b64Encode, NoSlash, NoColon, List.mem_cons] at ih ⊢
    constructor <;> rintro (h | h | h | h | h) <;>
      first
        | exact absurd h.symm (b64Char_ne_47_58 _).1
        | exact absurd h.symm (b64Char_ne_47_58 _).2
        | exact ih.1 h
        | exact ih.2 h

/-- Issuer IDs derived from a certificate contain neither `/` nor `:`. -/
theorem issuerID_wf (spki : List Nat) : NoSlash (NewIssuer spki).ID ∧
    NoColon (NewIssuer spki).ID := by
  rw [NewIssuer, Issuer.ID, SPKI.Sha256DigestURLEncodedBase64]
  exact b64Encode_no_47_58 _

/-- Serial IDs contain neither `/` nor `:`. -/
theorem serialID_wf (s : Serial) : NoSlash s.ID ∧ NoColon s.ID := by
  rw [Serial.ID]
  exact b64Encode_no_47_58 _

/-- Splitting at a separator absent from both prefixes is unambiguous. -/
theorem append_sep_inj (sep : Nat) : ∀ (a a' t t' : List Nat), sep ∉ a →
    sep ∉ a' → a ++ sep :: t = a' ++ sep :: t' → a = a' ∧ t = t'
  | [], [], t, t', _, _, h => by
    simp only [List.nil_append, List.cons.injEq] at h
    exact ⟨rfl, h.2⟩
  | [], x :: a', t, t', _, ha', h => by
    simp only [List.nil_append, List.cons_append, List.cons.injEq] at h
    exact absurd (h.1 ▸ List.mem_cons_self x a') ha'
  | x :: a, [], t, t', ha, _, h => by
    simp only [List.nil_append, List.cons_append, List.cons.injEq] at h
    exact absurd (h.1.symm ▸ List.mem_cons_self x a) ha
  | x :: a, x' :: a', t, t', ha, ha', h => by
    simp only [List.cons_append, List.cons.injEq] at h
    obtain ⟨rfl, h2⟩ := h
    have ha2 : sep ∉ a := fun hm => ha (List.mem_cons_of_mem _ hm)
    have ha2' : sep ∉ a' := fun hm => ha' (List.mem_cons_of_mem _ hm)
    obtain ⟨h3, h4⟩ := append_sep_inj sep a a' t t' ha2 ha2' h2
    exact ⟨by rw [h3], h4⟩

/-- Splitting at the last separator: unambiguous when the separator is
absent from both suffixes. -/
theorem append_sep_inj_last (sep : Nat) (a a' t t' : List Nat) (ht : sep ∉ t)
    (ht' : sep ∉ t') (h : a ++ sep :: t = a' ++ sep :: t') : a = a' ∧ t = t' := by
  have hrev : t.reverse ++ sep :: a.reverse = t'.reverse ++ sep :: a'.reverse := by
    have h2 := congrArg List.reverse h
    simp only [List.reverse_append, List.reverse_cons, List.append_assoc,
      List.singleton_append] at h2
    exact h2
  obtain ⟨h1, h2⟩ := append_sep_inj sep _ _ _ _ (by simpa using ht)
    (by simpa using ht') hrev
  constructor
  · have := congrArg List.reverse h2
    simpa using this
  · have := congrArg List.reverse h1
    simpa using this

/-- `serials::<expDate>::<issuerID>` determines its shard (for colon-free
dates; issuer IDs are base64 and colon-free by construction). -/
theorem serialsKey_inj (e e' i i' : GoStr) (he : NoColon e) (he' : NoColon e')
    (h : serialsKey e i = serialsKey e' i') : e = e' ∧ i = i' := by
  have d : ∀ (x y : GoStr), serialsKey x y = gostr "serials::" ++ (x ++ 58 :: 58 :: y) := by
    intro x y
    rw [serialsKey, show gostr "::" = 58 :: [58] from by decide]
    simp [List.append_assoc]
  rw [d, d] at h
  have h1 := List.append_cancel_left h
  obtain ⟨he2, hi2⟩ := append_sep_inj 58 _ _ _ _ he he' h1
  refine ⟨he2, ?_⟩
  simpa using hi2

/-- The PEM document path written by `StoreCertificatePEM`, over raw id
strings. -/
def pemPathID (e iID sID : GoStr) : GoStr :=
  gostr "ct/" ++ e ++ gostr "/issuer/" ++ iID ++ gostr "/certs/" ++ sID

theorem pemDocPath_eq (e : GoStr) (i : Issuer) (s : Serial) :
    pemDocPath e i s = pemPathID e i.ID s.ID := rfl

/-- A PEM document path determines its shard and serial (for slash-free
issuer and serial ids; both are base64 and slash-free by construction). -/
theorem pemPathID_inj (e e' iID iID' sID sID' : GoStr) (hi : NoSlash iID)
    (hi' : NoSlash iID') (hs : NoSlash sID) (hs' : NoSlash sID')
    (h : pemPathID e iID sID = pemPathID e' iID' sID') :
    e = e' ∧ iID = iID' ∧ sID = sID' := by
  have d1 : ∀ (x y z : GoStr), pemPathID x y z =
      (gostr "ct/" ++ x ++ gostr "/issuer/" ++ y ++ gostr "/certs") ++ 47 :: z := by
    intro x y z
    rw [pemPathID, show gostr "/certs/" = gostr "/certs" ++ [47] from by decide]
    simp [List.append_assoc]
  rw [d1, d1] at h
  obtain ⟨h2, hs12⟩ := append_sep_inj_last 47 _ _ _ _ hs hs' h
  have d2 : ∀ (x y : GoStr), gostr "ct/" ++ x ++ gostr "/issuer/" ++ y ++ gostr "/certs" =
      (gostr "ct/" ++ x ++ gostr "/issuer/" ++ y) ++ 47 :: gostr "certs" := by
    intro x y
    rw [show gostr "/certs" = 47 :: gostr "certs" from by decide]
    try simp [List.append_assoc]
  rw [d2, d2] at h2
  obtain ⟨h3, _⟩ := append_sep_inj_last 47 _ _ _ _ (by decide) (by decide) h2
  have d3 : ∀ (x y : GoStr), gostr "ct/" ++ x ++ gostr "/issuer/" ++ y =
      (gostr "ct/" ++ x ++ gostr "/issuer") ++ 47 :: y := by
    intro x y
    rw [show gostr "/issuer/" = gostr "/issuer" ++ [47] from by decide]
    simp [List.append_assoc]
  rw [d3, d3] at h3
  obtain ⟨h4, hi12⟩ := append_sep_inj_last 47 _ _ _ _ hi hi' h3
  have d4 : ∀ (x : GoStr), gostr "ct/" ++ x ++ gostr "/issuer" =
      (gostr "ct/" ++ x) ++ 47 :: gostr "issuer" := by
    intro x
    rw [show gostr "/issuer" = 47 :: gostr "issuer" from by decide]
    try simp [List.append_assoc]
  rw [d4, d4] at h4
  obtain ⟨h5, _⟩ := append_sep_inj_last 47 _ _ _ _ (by decide) (by decide) h4
  exact ⟨List.append_cancel_left h5, hi12, hs12⟩

theorem gostr_serialsPrefix :
    gostr "serials::" = [115, 101, 114, 105, 97, 108, 115, 58, 58] := by decide

theorem serialsKey_ne_crlsKey (e i e2 : GoStr) (i2 : Issuer) :
    serialsKey e i ≠ crlsKey e2 i2 := by
  intro h
  have h1 : (serialsKey e i).head? = some 115 := by
    rw [serialsKey, gostr_serialsPrefix]
    rfl
  have h2 : (crlsKey e2 i2).head? = some 99 := by
    rw [crlsKey, gostr_crlPrefix]
    rfl
  have h3 : (some 115 : Option Nat) = some 99 := by rw [← h1, h, h2]
  exact absurd h3 (by decide)

theorem serialsKey_ne_issuersKey (e i e2 : GoStr) (i2 : Issuer) :
    serialsKey e i ≠ issuersKey e2 i2 := by
  intro h
  have h1 : (serialsKey e i).head? = some 115 := by
    rw [serialsKey, gostr_serialsPrefix]
    rfl
  have h2 : (issuersKey e2 i2).head? = some 105 := by
    rw [issuersKey, gostr_issuerPrefix]
    rfl
  have h3 : (some 115 : Option Nat) = some 105 := by rw [← h1, h, h2]
  exact absurd h3 (by decide)

/-- Entries of an updated map come from the update or the old map. -/
theorem mem_aset {α : Type} : ∀ (m : List (GoStr × α)) (k : GoStr) (v : α)
    (kv : GoStr × α), kv ∈ aset m k v → kv = (k, v) ∨ kv ∈ m
  | [], k, v, kv, h => by
    simp [aset] at h
    exact Or.inl h
  | (k0, w) :: rest, k, v, kv, h => by
    rw [aset] at h
    by_cases he : k = k0
    · rw [if_pos he] at h
      rcases List.mem_cons.mp h with h1 | h1
      · subst he
        exact Or.inl h1
      · exact Or.inr (List.mem_cons_of_mem _ h1)
    · rw [if_neg he] at h
      rcases List.mem_cons.mp h with h1 | h1
      · exact Or.inr (h1 ▸ List.mem_cons_self _ _)
      · rcases mem_aset rest k v kv h1 with h2 | h2
        · exact Or.inl h2
        · exact Or.inr (List.mem_cons_of_mem _ h2)

theorem noPendingExpiry_expireAt (st : CacheState) (k : GoStr) (t : Int)
    (h : NoPendingExpiry st) (ht : ¬t < st.now) :
    NoPendingExpiry (cacheExpireAt st k t) := by
  intro kv hkv
  rw [cacheExpireAt] at hkv
  rcases mem_aset _ _ _ _ hkv with h1 | h1
  · subst h1
    exact ht
  · exact h kv h1

theorem noPendingExpiry_setInsert (st : CacheState) (k e : GoStr)
    (h : NoPendingExpiry st) : NoPendingExpiry (cacheSetInsert st k e).2 := by
  rcases cacheSetInsert_exps st k e with ⟨h1, h2⟩
  intro kv hkv
  rw [h2]
  exact h kv (h1 ▸ hkv)

/-- Generic key preservation for the metadata fold. -/
theorem dataAt_foldl_addCRL_other (expDate : GoStr) (issuer : Issuer) :
    ∀ (dps : List GoStr) (st : CacheState) (k' : GoStr),
    k' ≠ crlsKey expDate issuer →
    dataAt (dps.foldl (fun s dp => addCRL s expDate issuer dp) st) k' =
      dataAt st k' := by
  intro dps
  induction dps with
  | nil => intro st k' _; rfl
  | cons dp rest ih =>
    intro st k' hk
    rw [List.foldl_cons, ih _ _ hk, addCRL_other _ _ _ _ _ hk]

/-- `Accumulate` leaves every `serials::` slice, the TTL table, and the
clock untouched (given no pending expiry, its `Exists` cleanup is a no-op). -/
theorem accumulate_effects (st : CacheState) (e0 : GoStr) (issuer : Issuer)
    (cert : XCert) (h : NoPendingExpiry st) :
    (accumulate st e0 issuer cert).2.now = st.now ∧
    (accumulate st e0 issuer cert).2.expirations = st.expirations ∧
    ∀ e i : GoStr, dataAt (accumulate st e0 issuer cert).2 (serialsKey e i) =
      dataAt st (serialsKey e i) := by
  rw [accumulate]
  have hex : (cacheExists st (issuersKey e0 issuer)).2 = st := by
    rw [cacheExists, cleanupExpiry_noop st h]
  rw [hex]
  rcases foldl_addCRL_exps e0 issuer cert.crlDPs st with ⟨hf1, hf2⟩
  set stMid := cert.crlDPs.foldl (fun s dp => addCRL s e0 issuer dp) st with hmid
  rcases cacheSetInsert_exps stMid (issuersKey e0 issuer) cert.issuerDN
    with ⟨hg1, hg2⟩
  refine ⟨?_, ?_, ?_⟩
  · rw [addIssuerDN, hg2, hf2]
  · rw [addIssuerDN, hg1, hf1]
  · intro e i
    rw [addIssuerDN,
      dataAt_cacheSetInsert_other _ _ _ _ (serialsKey_ne_issuersKey e i e0 issuer),
      dataAt_foldl_addCRL_other _ _ _ _ _ (serialsKey_ne_crlsKey e i e0 issuer)]

theorem setExpiryFlag_data (st : CacheState) (e0 : GoStr) (issuer : Issuer) :
    (setExpiryFlag st e0 issuer).data = st.data ∧
    (setExpiryFlag st e0 issuer).now = st.now := ⟨rfl, rfl⟩

theorem foldInsert_go_sorted : ∀ (l : List GoStr) (acc : List GoStr),
    CacheSorted acc → CacheSorted (l.foldl (fun a s => (setInsert a s).2) acc)
  | [], _, h => h
  | x :: xs, acc, h => by
    rw [List.foldl_cons]
    exact foldInsert_go_sorted xs _ (setInsert_sorted _ _ h)

theorem foldInsert_sorted (l : List GoStr) : CacheSorted (foldInsert l) :=
  foldInsert_go_sorted l [] (List.Pairwise.nil)

theorem foldInsert_go_mem : ∀ (l : List GoStr) (acc : List GoStr) (x : GoStr),
    x ∈ l.foldl (fun a s => (setInsert a s).2) acc ↔ x ∈ acc ∨ x ∈ l
  | [], acc, x => by simp
  | y :: ys, acc, x => by
    rw [List.foldl_cons, foldInsert_go_mem ys _ x, setInsert_mem]
    simp
    tauto

theorem foldInsert_mem (l : List GoStr) (x : GoStr) :
    x ∈ foldInsert l ↔ x ∈ l := by
  rw [foldInsert, foldInsert_go_mem]
  simp

theorem foldInsert_append (l : List GoStr) (x : GoStr) :
    foldInsert (l ++ [x]) = (setInsert (foldInsert l) x).2 := by
  rw [foldInsert, foldInsert, List.foldl_append, List.foldl_cons, List.foldl_nil]

theorem foldInsert_nodup (l : List GoStr) : (foldInsert l).Nodup := by
  have h := foldInsert_sorted l
  rw [CacheSorted] at h
  exact h.imp (fun hab => by
    intro he
    subst he
    rw [bytesLt_irrefl] at hab
    exact Bool.noConfusion hab)

/-- The sorted dedup the cache accumulates has exactly one entry per
distinct inserted string. -/
theorem length_foldInsert (l : List GoStr) :
    (foldInsert l).length = l.dedup.length := by
  classical
  have h1 : (foldInsert l).toFinset = l.dedup.toFinset := by
    ext x
    simp [foldInsert_mem, List.mem_dedup]
  have h2 : (foldInsert l).toFinset.card = (foldInsert l).length :=
    List.toFinset_card_of_nodup (foldInsert_nodup l)
  have h3 : l.dedup.toFinset.card = l.dedup.length :=
    List.toFinset_card_of_nodup l.nodup_dedup
  rw [← h2, ← h3, h1]

theorem shardSerials_append (subs : List Submission) (sub : Submission)
    (e i : GoStr) :
    shardSerials (subs ++ [sub]) e i = shardSerials subs e i ++
      (if subExpDate sub = e ∧ subIssuerID sub = i then [NewSerial sub.cert]
       else []) := by
  rw [shardSerials, shardSerials, List.filterMap_append]
  congr 1
  by_cases h : subExpDate sub = e ∧ subIssuerID sub = i <;>
    simp [List.filterMap, h]

/-- `Serial.ID` is injective on byte-valued serials (decode inverts it). -/
theorem serialID_inj (s s' : Serial) (h : ∀ b ∈ s.serial, b < 256)
    (h' : ∀ b ∈ s'.serial, b < 256) (hid : s.ID = s'.ID) : s = s' := by
  have h1 : b64Decode (b64Encode s.serial) = some s.serial :=
    b64Decode_b64Encode _ h
  have h2 : b64Decode (b64Encode s'.serial) = some s'.serial :=
    b64Decode_b64Encode _ h'
  rw [Serial.ID, Serial.ID] at hid
  rw [hid, h2] at h1
  obtain ⟨l⟩ := s
  obtain ⟨l'⟩ := s'
  simpa using h1.symm

/-- Distinct submitted serials stay distinct after `Serial.ID` encoding. -/
theorem dedup_length_map_serialID (l : List Serial)
    (h : ∀ s ∈ l, ∀ b ∈ s.serial, b < 256) :
    ((l.map Serial.ID).dedup).length = l.dedup.length := by
  classical
  have h1 : (l.map Serial.ID).toFinset = l.toFinset.image Serial.ID := by
    ext x
    simp
  have h2 : (l.toFinset.image Serial.ID).card = l.toFinset.card := by
    apply Finset.card_image_of_injOn
    intro x hx y hy hxy
    exact serialID_inj x y (h x (List.mem_toFinset.mp hx))
      (h y (List.mem_toFinset.mp hy)) hxy
  rw [← List.card_toFinset, ← List.card_toFinset, h1, h2]

theorem cacheSetInsert_false (st : CacheState) (k e : GoStr)
    (h : (cacheSetInsert st k e).1 = false) : (cacheSetInsert st k e).2 = st := by
  rw [cacheSetInsert] at h ⊢
  by_cases hf : (setInsert ((alookup st.data k).getD []) e).1 = true
  · rw [if_pos hf] at h
    cases h
  · rw [if_neg hf]

theorem cacheSetInsert_false_mem (st : CacheState) (k e : GoStr)
    (h : (cacheSetInsert st k e).1 = false) :
    e ∈ dataAt st k := by
  rw [cacheSetInsert] at h
  by_cases hf : (setInsert ((alookup st.data k).getD []) e).1 = true
  · rw [if_pos hf] at h
    cases h
  · rw [dataAt]
    exact setInsert_false_mem _ _ (by
      revert hf
      cases (setInsert ((alookup st.data k).getD []) e).1 <;> simp)

theorem dataAt_cacheSetInsert_fresh (st : CacheState) (k e : GoStr)
    (h : (cacheSetInsert st k e).1 = true) :
    dataAt (cacheSetInsert st k e).2 k = (setInsert (dataAt st k) e).2 := by
  rw [cacheSetInsert] at h ⊢
  by_cases hf : (setInsert ((alookup st.data k).getD []) e).1 = true
  · rw [if_pos hf]
    rw [dataAt, dataAt]
    simp [alookup_aset]
  · rw [if_neg hf] at h
    cases h

theorem cacheSetInsert_fresh_iff (st : CacheState) (k e : GoStr) :
    (cacheSetInsert st k e).1 = (setInsert (dataAt st k) e).1 := by
  rw [cacheSetInsert, dataAt]
  by_cases hf : (setInsert ((alookup st.data k).getD []) e).1 = true <;>
    simp [hf]

/-- The write path `Store` takes when the serial was unknown, as a function
of the state after the test-and-insert: accumulate metadata, allocate the
shard and set the expiry flag when the issuer key was absent, write the
PEM. -/
def fsdbStoreUnknownPath (st : SysState) (sub : Submission) : SysState :=
  let expDate := sub.cert.notAfterDate
  let issuer := NewIssuer sub.issuerCert.rawSPKI
  let r2 := accumulate st.cache expDate issuer sub.cert
  let cache3 := if r2.1 then r2.2 else setExpiryFlag r2.2 expDate issuer
  let fs3 := if r2.1 then st.fs else allocateExpDateAndIssuer st.fs expDate issuer
  ⟨cache3, (storeCertificatePEM fs3 (NewSerial sub.cert) expDate issuer sub.cert.raw).1⟩

/-- The invariant `Store` maintains, relative to a frozen wall clock and the
multiset `P` of submissions already processed: the clock has not moved, no
TTL has expired, every shard's known-set is exactly the sorted dedup of the
serial IDs submitted to it, and every PEM document's serial id is in its
shard's known-set. -/
def StoreInv (now : Int) (P : List Submission) (st : SysState) : Prop :=
  st.cache.now = now ∧
  NoPendingExpiry st.cache ∧
  (∀ e i : GoStr, NoColon e → NoColon i →
    knownList st e i = foldInsert ((shardSerials P e i).map Serial.ID)) ∧
  (∀ (e iID sID : GoStr) (d : FsDoc), NoColon e → NoColon iID →
    NoSlash iID → NoSlash sID →
    alookup st.fs.docs (pemPathID e iID sID) = some d →
    alookup d kFieldType = some (.str kTypePEM) →
    sID ∈ knownList st e iID)

theorem dataAt_setExpiryFlag (st : CacheState) (e0 : GoStr) (i : Issuer)
    (k : GoStr) : dataAt (setExpiryFlag st e0 i) k = dataAt st k := by
  rw [dataAt, dataAt, (setExpiryFlag_data st e0 i).1]

theorem countPem_append (a b : List StoreEv) (e i : GoStr) :
    countPem (a ++ b) e i = countPem a e i + countPem b e i := by
  simp [countPem, List.countP_append]

theorem countPem_singleton (e0 i0 : GoStr) (s : Serial) (e i : GoStr) :
    countPem [.pemWrite e0 i0 s] e i = if e0 = e ∧ i0 = i then 1 else 0 := by
  by_cases h : e0 = e ∧ i0 = i <;>
    simp [countPem, List.countP_cons, h]

theorem shardSerials_bytes (subs : List Submission)
    (h : ∀ sub ∈ subs, GoodSub sub) (e i : GoStr) :
    ∀ s ∈ shardSerials subs e i, ∀ b ∈ s.serial, b < 256 := by
  intro s hs
  rw [shardSerials, List.mem_filterMap] at hs
  obtain ⟨sub, hsub, hsome⟩ := hs
  by_cases hc : subExpDate sub = e ∧ subIssuerID sub = i
  · rw [if_pos hc] at hsome
    cases hsome
    exact (h sub hsub).2
  · rw [if_neg hc] at hsome
    cases hsome

/-- Whatever `StoreCertificatePEM` leaves in the document store either is
the fresh PEM document at its canonical path or was already there. -/
theorem storeCertificatePEM_docs (fs : FirestoreState) (s : Serial)
    (e0 : GoStr) (issuer : Issuer) (b : List Nat) (hne : e0 ≠ [])
    (path : GoStr) (d : FsDoc)
    (hl : alookup (storeCertificatePEM fs s e0 issuer b).1.docs path = some d) :
    (path = pemPathID e0 issuer.ID s.ID ∧
      d = [(kFieldType, .str kTypePEM), (kFieldData, .bytes b)]) ∨
    alookup fs.docs path = some d := by
  rw [storeCertificatePEM, if_neg hne] at hl
  cases hdc : alookup fs.docs (pemDocPath e0 issuer s) with
  | some d0 =>
    simp only [docCreate, hdc, storePEMErrorPath, reduceIte] at hl
    exact Or.inr hl
  | none =>
    simp only [docCreate, hdc] at hl
    rw [alookup_aset] at hl
    by_cases hp : path = pemDocPath e0 issuer s
    · rw [if_pos hp] at hl
      exact Or.inl ⟨by rw [hp, pemDocPath_eq], (Option.some.inj hl).symm⟩
    · rw [if_neg hp] at hl
      exact Or.inr hl

/-- The shard-allocation documents are typed `ExpDate`/`Metadata`, so a
PEM-typed document seen after allocation was in the store before it. -/
theorem allocate_docs (fs : FirestoreState) (e0 : GoStr) (issuer : Issuer)
    (path : GoStr) (d : FsDoc)
    (hl : alookup (allocateExpDateAndIssuer fs e0 issuer).docs path = some d)
    (hty : alookup d kFieldType = some (.str kTypePEM)) :
    alookup fs.docs path = some d := by
  simp only [allocateExpDateAndIssuer, docSet] at hl
  rw [alookup_aset] at hl
  by_cases h1 : path = issuerDocPath e0 issuer
  · rw [if_pos h1] at hl
    cases hl
    rw [show alookup [(kFieldType, FsVal.str kTypeMetadata),
      (kFieldExpDate, FsVal.str e0), (kFieldIssuer, FsVal.str issuer.ID)]
      kFieldType = some (FsVal.str kTypeMetadata) from rfl] at hty
    exact absurd hty (by decide)
  · rw [if_neg h1, alookup_aset] at hl
    by_cases h2 : path = expDateDocPath e0
    · rw [if_pos h2] at hl
      cases hl
      rw [show alookup [(kFieldType, FsVal.str kTypeExpDate),
        (kFieldExpDate, FsVal.str e0)] kFieldType =
        some (FsVal.str kTypeExpDate) from rfl] at hty
      exact absurd hty (by decide)
    · rw [if_neg h2] at hl
      exact hl

theorem fsdbStore_pos_fst (st : SysState) (sub : Submission)
    (hu : (cacheSetInsert st.cache (serialsKey sub.cert.notAfterDate
      (NewIssuer sub.issuerCert.rawSPKI).ID) (NewSerial sub.cert).ID).1 = true) :
    (fsdbStore st sub).1 = fsdbStoreUnknownPath
      ⟨(cacheSetInsert st.cache (serialsKey sub.cert.notAfterDate
        (NewIssuer sub.issuerCert.rawSPKI).ID) (NewSerial sub.cert).ID).2,
       st.fs⟩ sub := by
  simp only [fsdbStore, fsdbStoreUnknownPath, wasUnknown]
  rw [if_pos hu]

theorem fsdbStore_pos_snd (st : SysState) (sub : Submission)
    (hu : (cacheSetInsert st.cache (serialsKey sub.cert.notAfterDate
      (NewIssuer sub.issuerCert.rawSPKI).ID) (NewSerial sub.cert).ID).1 = true) :
    (fsdbStore st sub).2 = [.pemWrite sub.cert.notAfterDate
      (NewIssuer sub.issuerCert.rawSPKI).ID (NewSerial sub.cert)] := by
  simp only [fsdbStore, wasUnknown]
  rw [if_pos hu]

theorem fsdbStore_neg_eq (st : SysState) (sub : Submission)
    (hu : ¬(cacheSetInsert st.cache (serialsKey sub.cert.notAfterDate
      (NewIssuer sub.issuerCert.rawSPKI).ID) (NewSerial sub.cert).ID).1 = true) :
    fsdbStore st sub = (st, []) := by
  have hu' : (cacheSetInsert st.cache (serialsKey sub.cert.notAfterDate
      (NewIssuer sub.issuerCert.rawSPKI).ID) (NewSerial sub.cert).ID).1 = false := by
    revert hu
    cases (cacheSetInsert st.cache (serialsKey sub.cert.notAfterDate
      (NewIssuer sub.issuerCert.rawSPKI).ID) (NewSerial sub.cert).ID).1 <;> simp
  simp only [fsdbStore, wasUnknown]
  rw [if_neg hu, cacheSetInsert_false st.cache _ _ hu']

/-- The unknown-serial write path does not move the clock, keeps all TTLs
unexpired, and leaves every `serials::` slice unchanged. -/
theorem unknownPath_cache (st : SysState) (sub : Submission)
    (hnpe : NoPendingExpiry st.cache)
    (hexp : ¬expiryFlagTime sub.cert.notAfterDate < st.cache.now) :
    (fsdbStoreUnknownPath st sub).cache.now = st.cache.now ∧
    NoPendingExpiry (fsdbStoreUnknownPath st sub).cache ∧
    ∀ e i : GoStr, dataAt (fsdbStoreUnknownPath st sub).cache (serialsKey e i) =
      dataAt st.cache (serialsKey e i) := by
  obtain ⟨hn, hx, hd⟩ := accumulate_effects st.cache sub.cert.notAfterDate
    (NewIssuer sub.issuerCert.rawSPKI) sub.cert hnpe
  have hnpeAcc : NoPendingExpiry (accumulate st.cache sub.cert.notAfterDate
      (NewIssuer sub.issuerCert.rawSPKI) sub.cert).2 := by
    intro kv hkv
    rw [hn]
    exact hnpe kv (hx ▸ hkv)
  simp only [fsdbStoreUnknownPath]
  by_cases hb : (accumulate st.cache sub.cert.notAfterDate
      (NewIssuer sub.issuerCert.rawSPKI) sub.cert).1 = true
  · rw [if_pos hb]
    exact ⟨hn, hnpeAcc, hd⟩
  · rw [if_neg hb]
    refine ⟨hn, ?_, ?_⟩
    · exact noPendingExpiry_expireAt _ _ _ hnpeAcc (by rw [hn]; exact hexp)
    · intro e i
      rw [dataAt_setExpiryFlag]
      exact hd e i

/-- Any PEM-typed document visible after the unknown-serial write path is
either the PEM document just written or predates the call. -/
theorem unknownPath_fsdocs (st : SysState) (sub : Submission)
    (hne : sub.cert.notAfterDate ≠ []) (path : GoStr) (d : FsDoc)
    (hl : alookup (fsdbStoreUnknownPath st sub).fs.docs path = some d)
    (hty : alookup d kFieldType = some (.str kTypePEM)) :
    (path = pemPathID sub.cert.notAfterDate
        (NewIssuer sub.issuerCert.rawSPKI).ID (NewSerial sub.cert).ID ∧
      d = [(kFieldType, .str kTypePEM), (kFieldData, .bytes sub.cert.raw)]) ∨
    alookup st.fs.docs path = some d := by
  simp only [fsdbStoreUnknownPath] at hl
  rcases storeCertificatePEM_docs _ _ _ _ _ hne path d hl with h | h
  · exact Or.inl h
  · by_cases hb : (accumulate st.cache sub.cert.notAfterDate
        (NewIssuer sub.issuerCert.rawSPKI) sub.cert).1 = true
    · rw [if_pos hb] at h
      exact Or.inr h
    · rw [if_neg hb] at h
      exact Or.inr (allocate_docs _ _ _ _ _ h hty)

/-- One `Store` call preserves the invariant, and issues exactly as many PEM
writes per shard as the growth of that shard's known-set. -/
theorem fsdbStore_step (now : Int) (P : List Submission) (st : SysState)
    (sub : Submission) (hgood : GoodSub sub)
    (hexp : ¬expiryFlagTime sub.cert.notAfterDate < now)
    (hinv : StoreInv now P st) :
    StoreInv now (P ++ [sub]) (fsdbStore st sub).1 ∧
    ∀ e i : GoStr, NoColon e → NoColon i →
      countPem (fsdbStore st sub).2 e i + (knownList st e i).length =
        (knownList (fsdbStore st sub).1 e i).length := by
  simp only [StoreInv, knownList] at hinv ⊢
  obtain ⟨hnow, hnpe, hknown, hpem⟩ := hinv
  obtain ⟨hdate, hbytes⟩ := hgood
  have hi0 := issuerID_wf sub.issuerCert.rawSPKI
  have hs0 := serialID_wf (NewSerial sub.cert)
  have he0c : NoColon sub.cert.notAfterDate := hdate.noColon
  by_cases hu : (cacheSetInsert st.cache (serialsKey sub.cert.notAfterDate
      (NewIssuer sub.issuerCert.rawSPKI).ID) (NewSerial sub.cert).ID).1 = true
  · rw [fsdbStore_pos_fst st sub hu, fsdbStore_pos_snd st sub hu]
    set c1st : SysState := ⟨(cacheSetInsert st.cache
      (serialsKey sub.cert.notAfterDate (NewIssuer sub.issuerCert.rawSPKI).ID)
      (NewSerial sub.cert).ID).2, st.fs⟩ with hc1st
    have hnowc1 : c1st.cache.now = now := by
      rw [hc1st]
      exact ((cacheSetInsert_exps st.cache _ _).2).trans hnow
    have hnpec1 : NoPendingExpiry c1st.cache := by
      rw [hc1st]
      exact noPendingExpiry_setInsert _ _ _ hnpe
    obtain ⟨hn3, hnpe3, hd3⟩ := unknownPath_cache c1st sub hnpec1
      (by rw [hnowc1]; exact hexp)
    have hknew : ∀ e i : GoStr, NoColon e →
        dataAt (fsdbStoreUnknownPath c1st sub).cache (serialsKey e i) =
          if sub.cert.notAfterDate = e ∧ (NewIssuer sub.issuerCert.rawSPKI).ID = i
          then (setInsert (dataAt st.cache (serialsKey sub.cert.notAfterDate
            (NewIssuer sub.issuerCert.rawSPKI).ID)) (NewSerial sub.cert).ID).2
          else dataAt st.cache (serialsKey e i) := by
      intro e i he
      rw [hd3 e i]
      by_cases hc : sub.cert.notAfterDate = e ∧
          (NewIssuer sub.issuerCert.rawSPKI).ID = i
      · obtain ⟨h1, h2⟩ := hc
        subst h1
        subst h2
        rw [if_pos ⟨rfl, rfl⟩]
        exact dataAt_cacheSetInsert_fresh _ _ _ hu
      · rw [if_neg hc]
        apply dataAt_cacheSetInsert_other
        intro hkey
        obtain ⟨h1, h2⟩ := serialsKey_inj e sub.cert.notAfterDate i
          (NewIssuer sub.issuerCert.rawSPKI).ID he he0c hkey
        exact hc ⟨h1.symm, h2.symm⟩
    refine ⟨⟨?_, ?_, ?_, ?_⟩, ?_⟩
    · exact hn3.trans hnowc1
    · exact hnpe3
    · intro e i he hi
      rw [hknew e i he, shardSerials_append]
      by_cases hc : sub.cert.notAfterDate = e ∧
          (NewIssuer sub.issuerCert.rawSPKI).ID = i
      · rw [if_pos hc,
          if_pos (show subExpDate sub = e ∧ subIssuerID sub = i from hc)]
        obtain ⟨h1, h2⟩ := hc
        subst h1
        subst h2
        rw [List.map_append,
          show ([NewSerial sub.cert].map Serial.ID) =
            [(NewSerial sub.cert).ID] from rfl,
          foldInsert_append, ← hknown _ _ he hi]
      · rw [if_neg hc,
          if_neg (show ¬(subExpDate sub = e ∧ subIssuerID sub = i) from hc),
          List.append_nil]
        exact hknown e i he hi
    · intro e i sID d he hi hiS hsS hl hty
      rcases unknownPath_fsdocs c1st sub hdate.2 _ _ hl hty with ⟨hpath, _⟩ | h2
      · obtain ⟨h1, h2', h3⟩ := pemPathID_inj e sub.cert.notAfterDate i
          (NewIssuer sub.issuerCert.rawSPKI).ID sID (NewSerial sub.cert).ID
          hiS hi0.1 hsS hs0.1 hpath
        subst h1
        subst h2'
        subst h3
        rw [hknew _ _ he0c, if_pos ⟨rfl, rfl⟩]
        exact (setInsert_mem _ _ _).mpr (Or.inl rfl)
      · have hmem := hpem e i sID d he hi hiS hsS h2 hty
        rw [hknew e i he]
        by_cases hc : sub.cert.notAfterDate = e ∧
            (NewIssuer sub.issuerCert.rawSPKI).ID = i
        · rw [if_pos hc]
          obtain ⟨h1, h2'⟩ := hc
          subst h1
          subst h2'
          exact (setInsert_mem _ _ _).mpr (Or.inr hmem)
        · rw [if_neg hc]
          exact hmem
    · intro e i he hi
      rw [hknew e i he, countPem_singleton]
      by_cases hc : sub.cert.notAfterDate = e ∧
          (NewIssuer sub.issuerCert.rawSPKI).ID = i
      · rw [if_pos hc, if_pos hc]
        obtain ⟨h1, h2⟩ := hc
        subst h1
        subst h2
        have hfresh : (setInsert (dataAt st.cache
            (serialsKey sub.cert.notAfterDate
              (NewIssuer sub.issuerCert.rawSPKI).ID))
            (NewSerial sub.cert).ID).1 = true := by
          rw [← cacheSetInsert_fresh_iff]
          exact hu
        rw [setInsert_length, if_pos hfresh]
        omega
      · rw [if_neg hc, if_neg hc]
        omega
  · rw [fsdbStore_neg_eq st sub hu]
    have hu' : (cacheSetInsert st.cache (serialsKey sub.cert.notAfterDate
        (NewIssuer sub.issuerCert.rawSPKI).ID) (NewSerial sub.cert).ID).1 = false := by
      revert hu
      cases (cacheSetInsert st.cache (serialsKey sub.cert.notAfterDate
        (NewIssuer sub.issuerCert.rawSPKI).ID) (NewSerial sub.cert).ID).1 <;> simp
    refine ⟨⟨hnow, hnpe, ?_, hpem⟩, ?_⟩
    · intro e i he hi
      rw [shardSerials_append]
      by_cases hc : subExpDate sub = e ∧ subIssuerID sub = i
      · rw [if_pos hc]
        obtain ⟨h1, h2⟩ := hc
        subst h1
        subst h2
        rw [List.map_append,
          show ([NewSerial sub.cert].map Serial.ID) =
            [(NewSerial sub.cert).ID] from rfl,
          foldInsert_append, ← hknown _ _ he hi]
        have hmem : (NewSerial sub.cert).ID ∈ dataAt st.cache
            (serialsKey (subExpDate sub) (subIssuerID sub)) :=
          cacheSetInsert_false_mem _ _ _ hu'
        have hsort : CacheSorted (dataAt st.cache
            (serialsKey (subExpDate sub) (subIssuerID sub))) := by
          rw [hknown _ _ he hi]
          exact foldInsert_sorted _
        rw [setInsert_stable _ _ hsort hmem]
      · rw [if_neg hc, List.append_nil]
        exact hknown e i he hi
    · intro e i he hi
      simp [countPem]

/-- The invariant across a whole sequence of `Store` calls, and the shard
count identity: PEM writes issued = growth of the known-set. -/
theorem runStores_inv (now : Int) : ∀ (subs P : List Submission) (st : SysState),
    (∀ sub ∈ subs, GoodSub sub) →
    (∀ sub ∈ subs, ¬expiryFlagTime sub.cert.notAfterDate < now) →
    StoreInv now P st →
    StoreInv now (P ++ subs) (runStores st subs).1 ∧
    ∀ e i : GoStr, NoColon e → NoColon i →
      countPem (runStores st subs).2 e i + (knownList st e i).length =
        (knownList (runStores st subs).1 e i).length
  | [], P, st, _, _, hinv => by
    simp only [runStores]
    refine ⟨by simpa using hinv, ?_⟩
    intro e i _ _
    simp [countPem]
  | sub :: rest, P, st, hgood, hexp, hinv => by
    simp only [runStores]
    have hstep := fsdbStore_step now P st sub
      (hgood sub (List.mem_cons_self sub rest))
      (hexp sub (List.mem_cons_self sub rest)) hinv
    have hrec := runStores_inv now rest (P ++ [sub]) (fsdbStore st sub).1
      (fun s hs => hgood s (List.mem_cons_of_mem _ hs))
      (fun s hs => hexp s (List.mem_cons_of_mem _ hs)) hstep.1
    constructor
    · rw [show P ++ sub :: rest = (P ++ [sub]) ++ rest by simp]
      exact hrec.1
    · intro e i he hi
      have h1 := hstep.2 e i he hi
      have h2 := hrec.2 e i he hi
      rw [countPem_append]
      omega

/-- A fresh system (empty cache, empty document store) satisfies the `Store`
invariant with no submissions processed. -/
theorem storeInv_init (now : Int) : StoreInv now [] (initialSysState now) := by
  refine ⟨rfl, ?_, ?_, ?_⟩
  · intro kv hkv
    simp [initialSysState, newMockRemoteCache] at hkv
  · intro e i _ _
    rfl
  · intro e i sID d _ _ _ _ hl _
    exact Option.noConfusion hl

/-- C1: for every sequence of `Store` calls from a fresh system and every
shard `(expDate, issuerID)` (colon-free coordinates: dates are
`YYYY-MM-DD`-shaped and issuer IDs are base64), the number of
`StoreCertificatePEM` writes issued for that shard equals the number of
distinct serials submitted to it; and each individual `Store` call issues a
PEM write if and only if `WasUnknown`'s atomic test-and-insert reported the
serial as not previously present.  Hypotheses: submissions carry formatted
dates and byte-valued serials, and no shard's expiry TTL elapses during the
run (the frozen clock `now`). -/
theorem store_dedup_pem_writes (now : Int) (subs : List Submission)
    (hgood : ∀ sub ∈ subs, GoodSub sub)
    (hexp : ∀ sub ∈ subs, ¬expiryFlagTime sub.cert.notAfterDate < now)
    (e i : GoStr) (he : NoColon e) (hi : NoColon i) :
    countPem (runStores (initialSysState now) subs).2 e i =
      (shardSerials subs e i).dedup.length ∧
    ∀ (st : SysState) (sub : Submission),
      (fsdbStore st sub).2 =
        if (wasUnknown st.cache sub.cert.notAfterDate
            (NewIssuer sub.issuerCert.rawSPKI) (NewSerial sub.cert)).1 = true
        then [StoreEv.pemWrite sub.cert.notAfterDate
              (NewIssuer sub.issuerCert.rawSPKI).ID (NewSerial sub.cert)]
        else [] := by
  constructor
  · have h := runStores_inv now subs [] (initialSysState now) hgood hexp
      (storeInv_init now)
    have hc := h.2 e i he hi
    have hk := h.1.2.2.1 e i he hi
    simp only [List.nil_append] at hk
    rw [hk] at hc
    rw [show knownList (initialSysState now) e i = [] from rfl] at hc
    rw [length_foldInsert,
      dedup_length_map_serialID _ (shardSerials_bytes subs hgood e i)] at hc
    simpa using hc
  · intro st sub
    by_cases h : (cacheSetInsert st.cache (serialsKey sub.cert.notAfterDate
        (NewIssuer sub.issuerCert.rawSPKI).ID) (NewSerial sub.cert).ID).1 = true
    · rw [fsdbStore_pos_snd st sub h,
        if_pos (show (wasUnknown st.cache sub.cert.notAfterDate
          (NewIssuer sub.issuerCert.rawSPKI) (NewSerial sub.cert)).1 = true from h)]
    · rw [fsdbStore_neg_eq st sub h,
        if_neg (show ¬(wasUnknown st.cache sub.cert.notAfterDate
          (NewIssuer sub.issuerCert.rawSPKI) (NewSerial sub.cert)).1 = true from h)]

/-- A concrete submission: a certificate expiring 2050-01-01 with serial
bytes `[1, 2]`, also serving as its own issuer certificate. -/
def c1Cert : XCert := ⟨gostr "2050-01-01", gostr "CN=I", [], [1, 2], [9], [13]⟩

def c1Sub : Submission := ⟨c1Cert, c1Cert, gostr "log", 0⟩

theorem store_dedup_pem_writes_witness :
    countPem (runStores (initialSysState 0) [c1Sub, c1Sub]).2
      (gostr "2050-01-01") (subIssuerID c1Sub) =
    (shardSerials [c1Sub, c1Sub] (gostr "2050-01-01")
      (subIssuerID c1Sub)).dedup.length :=
  (store_dedup_pem_writes 0 [c1Sub, c1Sub]
    (by intro sub hs; fin_cases hs <;> exact ⟨⟨by decide, by decide⟩, by decide⟩)
    (by intro sub hs; fin_cases hs <;> decide)
    (gostr "2050-01-01") (subIssuerID c1Sub)
    (by decide : (58 : Nat) ∉ gostr "2050-01-01")
    ((issuerID_wf c1Sub.issuerCert.rawSPKI).2)).1

/-- C2 (invariant I1): after any sequence of `Store` calls from a fresh
system, every serial whose PEM document sits in the backend for shard
`(expDate, issuerID)` is a member of that shard's known-set in the remote
cache.  Same run hypotheses as the dedup property; the shard coordinates
are colon-free and the issuer id slash-free, as the real ids are. -/
theorem store_pem_implies_known (now : Int) (subs : List Submission)
    (hgood : ∀ sub ∈ subs, GoodSub sub)
    (hexp : ∀ sub ∈ subs, ¬expiryFlagTime sub.cert.notAfterDate < now)
    (e iID : GoStr) (s : Serial) (d : FsDoc)
    (he : NoColon e) (hi : NoColon iID) (hiS : NoSlash iID)
    (hl : alookup (runStores (initialSysState now) subs).1.fs.docs
      (pemPathID e iID s.ID) = some d)
    (hty : alookup d kFieldType = some (.str kTypePEM)) :
    s.ID ∈ knownList (runStores (initialSysState now) subs).1 e iID := by
  have h := runStores_inv now subs [] (initialSysState now) hgood hexp
    (storeInv_init now)
  exact h.1.2.2.2 e iID s.ID d he hi hiS (serialID_wf s).1 hl hty

set_option maxRecDepth 1000000 in
theorem store_pem_implies_known_witness :
    (NewSerial c1Cert).ID ∈ knownList (runStores (initialSysState 0) [c1Sub]).1
      (gostr "2050-01-01") (subIssuerID c1Sub) :=
  store_pem_implies_known 0 [c1Sub]
    (by intro sub hs; fin_cases hs <;> exact ⟨⟨by decide, by decide⟩, by decide⟩)
    (by intro sub hs; fin_cases hs <;> decide)
    (gostr "2050-01-01") (subIssuerID c1Sub) (NewSerial c1Cert)
    [(kFieldType, .str kTypePEM), (kFieldData, .bytes c1Cert.raw)]
    (by decide : (58 : Nat) ∉ gostr "2050-01-01")
    ((issuerID_wf c1Sub.issuerCert.rawSPKI).2)
    ((issuerID_wf c1Sub.issuerCert.rawSPKI).1)
    (by decide)
    (by decide)

end CtMapReduce
